import Mathlib

/-!
Verification of the partition-table core of the webesptool firmware backend.

The definitions below are a shallow embedding of the Python sources:
`webesptool/utils/partition_parser/{parser,const,models,validator,utils,formatters}.py`
and the offset-resolution portion of `webesptool/service.py`.
Byte buffers are `List Nat` (each element a byte value), machine integers are
`Nat` with explicit `% 2^w` where the code packs or unpacks fixed-width fields,
and raising an exception is returning an `Except.error` / `some error` value.
Decoded partition names are lists of Unicode code points (Python `str`).
-/

/-! ## Constants (`const.py`) -/

def PARTITION_MAGIC : Nat := 0x50AA

def PARTITION_END_MARKER : Nat := 0xEBEB

def PARTITION_ENTRY_SIZE : Nat := 32

def PARTITION_ALIGNMENT : Nat := 0x1000

/-! ## UTF-8 decoding with `errors="replace"`

Model of CPython's UTF-8 decoder with the `replace` error handler, used by
`name_bytes.rstrip(b"\x00").decode("utf-8", errors="replace")` in `parser.py`.
It is a byte-at-a-time machine: an input byte in the initial state either
emits a code point (ASCII), emits U+FFFD (invalid lead byte), or starts a
multi-byte sequence recording the accumulated value, the number of
continuation bytes still needed and the admissible range of the next byte.
A byte outside the admissible range emits one U+FFFD for the maximal subpart
consumed so far and is then reprocessed in the initial state; a sequence
truncated by the end of input emits one U+FFFD. -/

inductive Utf8Class where
  | emit (c : Nat)
  | start (acc need lo hi : Nat)

def utf8Classify (b : Nat) : Utf8Class :=
  if b < 0x80 then .emit b
  else if b < 0xC2 then .emit 0xFFFD
  else if b ≤ 0xDF then .start (b - 0xC0) 1 0x80 0xBF
  else if b ≤ 0xEF then
    .start (b - 0xE0) 2 (if b = 0xE0 then 0xA0 else 0x80) (if b = 0xED then 0x9F else 0xBF)
  else if b ≤ 0xF4 then
    .start (b - 0xF0) 3 (if b = 0xF0 then 0x90 else 0x80) (if b = 0xF4 then 0x8F else 0xBF)
  else .emit 0xFFFD

def utf8Go : Option (Nat × Nat × Nat × Nat) → List Nat → List Nat
  | none, [] => []
  | none, b :: rest =>
    match utf8Classify b with
    | .emit c => c :: utf8Go none rest
    | .start acc need lo hi => utf8Go (some (acc, need, lo, hi)) rest
  | some _, [] => [0xFFFD]
  | some (acc, need, lo, hi), b :: rest =>
    if lo ≤ b ∧ b ≤ hi then
      if need = 1 then (acc * 64 + (b - 0x80)) :: utf8Go none rest
      else utf8Go (some (acc * 64 + (b - 0x80), need - 1, 0x80, 0xBF)) rest
    else
      0xFFFD :: (match utf8Classify b with
        | .emit c => c :: utf8Go none rest
        | .start acc2 need2 lo2 hi2 => utf8Go (some (acc2, need2, lo2, hi2)) rest)

def utf8DecodeReplace (l : List Nat) : List Nat := utf8Go none l

/-- `bytes.rstrip(b"\x00")`: remove trailing zero bytes. -/
def rstripZeros (l : List Nat) : List Nat := (l.reverse.dropWhile (fun b => b == 0)).reverse

/-! ## Data model (`models.py`) -/

structure PartitionEntry where
  name : List Nat
  type_val : Nat
  subtype : Nat
  offset : Nat
  size : Nat
  flags : Nat
deriving DecidableEq

def dummyEntry : PartitionEntry := ⟨[], 0, 0, 0, 0, 0⟩

/-! ## Decoder (`parser.py`, `parse_partitions_file`) -/

inductive ParseErr where
  | tooSmall (len : Nat)
  | truncated (off : Nat)
  | badMagic (off : Nat) (magic : Nat)
deriving DecidableEq

deriving instance DecidableEq for Except

/-- Little-endian reassembly of a 4-byte field, as done by `struct.unpack("<...I...")`. -/
def u32of (b0 b1 b2 b3 : Nat) : Nat := b0 + 256 * b1 + 65536 * b2 + 16777216 * b3

/-- The `while True` loop of `parse_partitions_file`: read 32-byte entries until the
end marker, checking the magic of each entry; `off` is the current byte offset,
carried for error messages.  Each 32-byte record is `<HBBII16sI` little-endian:
u16 magic, u8 type, u8 subtype, u32 offset, u32 size, 16 name bytes, u32 flags. -/
def parseLoop : List Nat → Nat → Except ParseErr (List PartitionEntry)
  | b0 :: b1 :: b2 :: b3 :: b4 :: b5 :: b6 :: b7 :: b8 :: b9 :: b10 :: b11 ::
    b12 :: b13 :: b14 :: b15 :: b16 :: b17 :: b18 :: b19 :: b20 :: b21 :: b22 :: b23 ::
    b24 :: b25 :: b26 :: b27 :: b28 :: b29 :: b30 :: b31 :: rest, off =>
    let magic := b0 + 256 * b1
    if magic = PARTITION_END_MARKER then .ok []
    else if magic ≠ PARTITION_MAGIC then .error (.badMagic off magic)
    else
      let entry : PartitionEntry :=
        { name := utf8DecodeReplace (rstripZeros [b12, b13, b14, b15, b16, b17, b18, b19,
            b20, b21, b22, b23, b24, b25, b26, b27])
          type_val := b2
          subtype := b3
          offset := u32of b4 b5 b6 b7
          size := u32of b8 b9 b10 b11
          flags := u32of b28 b29 b30 b31 }
      match parseLoop rest (off + 32) with
      | .ok es => .ok (entry :: es)
      | .error e => .error e
  | _, off => .error (.truncated off)

/-- `parse_partitions_file` on an in-memory buffer: the initial size check then
the entry loop. -/
def parse_partitions_file (data : List Nat) : Except ParseErr (List PartitionEntry) :=
  if data.length < PARTITION_ENTRY_SIZE then .error (.tooSmall data.length)
  else parseLoop data 0

/-- The fields decoded from one 32-byte record, expressed positionally over the
remaining buffer; used to state equations about `parseLoop`. -/
def decodeFields (rem : List Nat) : PartitionEntry :=
  { name := utf8DecodeReplace (rstripZeros ((rem.drop 12).take 16))
    type_val := rem.getD 2 0
    subtype := rem.getD 3 0
    offset := u32of (rem.getD 4 0) (rem.getD 5 0) (rem.getD 6 0) (rem.getD 7 0)
    size := u32of (rem.getD 8 0) (rem.getD 9 0) (rem.getD 10 0) (rem.getD 11 0)
    flags := u32of (rem.getD 28 0) (rem.getD 29 0) (rem.getD 30 0) (rem.getD 31 0) }

/-! ## Synthetic buffer construction

The repository contains no encoder; these definitions build the synthetic
buffer described by the round-trip property: each record as a 32-byte
little-endian entry (magic 0x50AA, type, subtype, offset, size, 16-byte
zero-padded name, flags) followed by an end-marker entry with magic 0xEBEB. -/

/-- Strict UTF-8 encoding of a code point (assumes a Unicode scalar value). -/
def utf8EncodeChar (c : Nat) : List Nat :=
  if c < 0x80 then [c]
  else if c < 0x800 then [0xC0 + c / 64, 0x80 + c % 64]
  else if c < 0x10000 then [0xE0 + c / 4096, 0x80 + c / 64 % 64, 0x80 + c % 64]
  else [0xF0 + c / 262144, 0x80 + c / 4096 % 64, 0x80 + c / 64 % 64, 0x80 + c % 64]

def utf8Encode (cs : List Nat) : List Nat := cs.flatMap utf8EncodeChar

/-- A Unicode scalar value: representable in a Python `str` and encodable as UTF-8. -/
def ValidScalar (c : Nat) : Prop := c < 0x110000 ∧ ¬(0xD800 ≤ c ∧ c ≤ 0xDFFF)

instance (c : Nat) : Decidable (ValidScalar c) := by unfold ValidScalar; infer_instance

def u16le (n : Nat) : List Nat := [n % 256, n / 256 % 256]

def u32le (n : Nat) : List Nat := [n % 256, n / 256 % 256, n / 65536 % 256, n / 16777216 % 256]

/-- The 16-byte zero-padded name field. -/
def nameField16 (name : List Nat) : List Nat :=
  utf8Encode name ++ List.replicate (16 - (utf8Encode name).length) 0

def encodeEntry (e : PartitionEntry) : List Nat :=
  u16le PARTITION_MAGIC ++ [e.type_val % 256, e.subtype % 256] ++ u32le e.offset ++
    u32le e.size ++ nameField16 e.name ++ u32le e.flags

def endMarkerEntry : List Nat := u16le PARTITION_END_MARKER ++ List.replicate 30 0

def encodeTable (es : List PartitionEntry) : List Nat := es.flatMap encodeEntry ++ endMarkerEntry

/-- A record that the synthetic encoding can represent exactly: every field fits
its fixed width and the UTF-8 encoded name fits the 16-byte name field. -/
def EncodableEntry (e : PartitionEntry) : Prop :=
  (∀ c ∈ e.name, ValidScalar c) ∧ (utf8Encode e.name).length ≤ 16 ∧
    e.type_val < 256 ∧ e.subtype < 256 ∧ e.offset < 4294967296 ∧ e.size < 4294967296 ∧
    e.flags < 4294967296

instance (e : PartitionEntry) : Decidable (EncodableEntry e) := by
  unfold EncodableEntry; infer_instance

/-! ## Best-match selector (`utils.py`, `find_partition_by_type`) -/

def keyOf (subtypes : List Nat) (e : PartitionEntry) : Nat × Nat :=
  (subtypes.indexOf e.subtype, e.offset)

/-- Lexicographic comparison of `(subtype priority index, offset)` keys, as done
by Python's tuple comparison inside `sorted(..., key=...)`. -/
def keyLe (p q : Nat × Nat) : Bool :=
  decide (p.1 < q.1) || (decide (p.1 = q.1) && decide (p.2 ≤ q.2))

def find_partition_by_type (entries : List PartitionEntry) (type_val : Nat)
    (subtypes : List Nat) : Option Nat :=
  let ms := entries.filter (fun e => decide (e.type_val = type_val) && subtypes.contains e.subtype)
  if ms.isEmpty then none
  else
    match ms.mergeSort (fun a b => keyLe (keyOf subtypes a) (keyOf subtypes b)) with
    | [] => none
    | e :: _ => some e.offset

/-! ## Python dict literals and hex formatting -/

/-- Insertion into a Python dict: overwrite in place if the key exists, else
append, preserving insertion order. -/
def dictInsert {κ α : Type} [BEq κ] (d : List (κ × α)) (k : κ) (v : α) : List (κ × α) :=
  if d.any (fun p => p.1 == k) then d.map (fun p => if p.1 == k then (k, v) else p)
  else d ++ [(k, v)]

/-- A Python dict built from a literal: later duplicate keys overwrite earlier ones. -/
def dictOf {κ α : Type} [BEq κ] (ps : List (κ × α)) : List (κ × α) :=
  ps.foldl (fun d p => dictInsert d p.1 p.2) []

def dictGet {κ α : Type} [BEq κ] (d : List (κ × α)) (k : κ) : Option α :=
  (d.find? (fun p => p.1 == k)).map (fun p => p.2)

/-- Lowercase hexadecimal digits of `n`, as in Python's `"%x"` formatting. -/
def hexStr (n : Nat) : String := String.mk (Nat.toDigits 16 n)

/-- Python `f"0x{n:02x}"`. -/
def hex02x (n : Nat) : String := "0x" ++ (if n < 16 then "0" else "") ++ hexStr n

/-- Python `f"0x{n:x}"`, the `offset_hex` property of `models.py`. -/
def offset_hex (n : Nat) : String := "0x" ++ hexStr n

/-! ## Type and subtype names (`const.py`) -/

def TYPE_NAMES : List (Nat × String) := dictOf [(0x00, "app"), (0x01, "data")]

def APP_SUBTYPE_NAMES : List (Nat × String) :=
  dictOf ([(0x00, "factory"), (0x20, "test")] ++
    (List.range 16).map (fun i => (0x10 + i, "ota_" ++ toString i)))

def DATA_SUBTYPE_NAMES : List (Nat × String) :=
  dictOf [(0x00, "ota"), (0x01, "phy"), (0x02, "nvs"), (0x03, "nvs_keys"),
    (0x04, "efuse"), (0x05, "undefined"), (0x06, "esphttpd"), (0x07, "fat"),
    (0x08, "spiffs"), (0x09, "littlefs"), (0x10, "descriptors"), (0xFE, "coredump"),
    (0x82, "spiffs"), (0x03, "coredump")]

def get_subtype_name (partition_type subtype : Nat) : String :=
  if partition_type = 0x00 then (dictGet APP_SUBTYPE_NAMES subtype).getD (hex02x subtype)
  else if partition_type = 0x01 then (dictGet DATA_SUBTYPE_NAMES subtype).getD (hex02x subtype)
  else hex02x subtype

/-! ## Analyzer (`formatters.py`, `format_analysis`) -/

/-- `max(table.entries, key=lambda e: e.offset + e.size)` followed by taking that
sum; `0` for an empty table.  Python's `max` keeps the first element among ties,
so the fold replaces only on strict increase. -/
def flash_size_bytes (entries : List PartitionEntry) : Nat :=
  match entries with
  | [] => 0
  | e :: es =>
    let last_entry :=
      es.foldl (fun best x => if best.offset + best.size < x.offset + x.size then x else best) e
    last_entry.offset + last_entry.size

/-- The flash-size bucket chosen by `format_analysis`: first power in
`[2, 4, 8, 16]` with `bytes / 2^20 ≤ power`, else round up to a whole MB.
The Python float arithmetic is exact here (division by a power of two of a
value below 2^53), so exact naturals model it faithfully. -/
def flashSizeClass (b : Nat) : String :=
  if b ≤ 2 * 1048576 then "2MB"
  else if b ≤ 4 * 1048576 then "4MB"
  else if b ≤ 8 * 1048576 then "8MB"
  else if b ≤ 16 * 1048576 then "16MB"
  else toString (b / 1048576 + (if b % 1048576 = 0 then 0 else 1)) ++ "MB"

structure AnalysisResult where
  flash_size_mb : String
  flash_size_bytes : Nat
  partition_count : Nat
  partitions : List (List Nat × String)
deriving DecidableEq

def format_analysis (entries : List PartitionEntry) : AnalysisResult :=
  { flash_size_mb := flashSizeClass (flash_size_bytes entries)
    flash_size_bytes := flash_size_bytes entries
    partition_count := entries.length
    partitions := dictOf (entries.map (fun e => (e.name, offset_hex e.offset))) }

/-! ## Validator (`validator.py`) -/

inductive ValidationErr where
  | emptyTable
  | emptyName (index : Nat)
  | nameTooLong (index : Nat) (len : Nat)
  | offsetNotAligned (index : Nat) (offset : Nat)
  | sizeNotAligned (index : Nat) (size : Nat)
  | overlap (current next : PartitionEntry)
deriving DecidableEq

/-- `_validate_entry`: first failing per-record check, if any. -/
def _validate_entry (e : PartitionEntry) (index : Nat) : Option ValidationErr :=
  if e.name.length = 0 then some (.emptyName index)
  else if 16 < e.name.length then some (.nameTooLong index e.name.length)
  else if e.offset % PARTITION_ALIGNMENT ≠ 0 then some (.offsetNotAligned index e.offset)
  else if e.size % PARTITION_ALIGNMENT ≠ 0 ∧ e.size ≠ 0xFFFFFFFF then
    some (.sizeNotAligned index e.size)
  else none

def firstEntryErrorAux : Nat → List PartitionEntry → Option ValidationErr
  | _, [] => none
  | i, e :: es =>
    match _validate_entry e i with
    | some err => some err
    | none => firstEntryErrorAux (i + 1) es

/-- The sorted list scanned by `_check_overlaps`: entries with positive offset,
ascending by offset (Python's `sorted` is stable; so is `mergeSort`). -/
def overlapSorted (entries : List PartitionEntry) : List PartitionEntry :=
  (entries.filter (fun e => decide (0 < e.offset))).mergeSort
    (fun a b => decide (a.offset ≤ b.offset))

/-- The adjacent-pair scan of `_check_overlaps`: skip pairs whose earlier entry
has the rest-of-flash sentinel size, fail on the first pair where the earlier
entry's end exceeds the later entry's offset. -/
def firstOverlap : List PartitionEntry → Option (PartitionEntry × PartitionEntry)
  | current :: next :: rest =>
    if current.size ≠ 0xFFFFFFFF ∧ next.offset < current.offset + current.size then
      some (current, next)
    else firstOverlap (next :: rest)
  | _ => none

def _check_overlaps (entries : List PartitionEntry) : Option ValidationErr :=
  (firstOverlap (overlapSorted entries)).map (fun p => .overlap p.1 p.2)

def validate_partition_table (entries : List PartitionEntry)
    (check_overlaps : Bool := true) : Option ValidationErr :=
  if entries.isEmpty then some .emptyTable
  else
    match firstEntryErrorAux 0 entries with
    | some err => some err
    | none => if check_overlaps then _check_overlaps entries else none

/-! ## Offset resolution (`service.py`, `buildManifest` lines 585-643) -/

/-- The adjacent string literals of the `BIGDB_8MB=( ... )` source expression, in
source order.  The source writes them with no commas, so this is NOT the value
of `BIGDB_8MB` in the program; see `BIGDB_8MB` below. -/
def BIGDB_8MB_ITEMS : List String :=
  ["picomputer-s3", "unphone", "seeed-sensecap-indicator", "crowpanel-esp32s3",
   "heltec_capsule_sensor_v3", "heltec-v3", "heltec-vision-master-e213",
   "heltec-vision-master-e290", "heltec-vision-master-t190", "heltec-wireless-paper",
   "heltec-wireless-tracker", "heltec-wsl-v3", "icarus", "seeed-xiao-s3",
   "tbeam-s3-core", "tracksenger"]

/-- The adjacent string literals of the `BIGDB_16MB=( ... )` source expression,
in source order (again comma-less in the source). -/
def BIGDB_16MB_ITEMS : List String :=
  ["t-deck", "mesh-tab", "t-energy-s3", "dreamcatcher", "ESP32-S3-Pico",
   "m5stack-cores3", "station-g2", "t-eth-elite", "t-watch-s3", "elecrow-adv-35-tft",
   "elecrow-adv-24-28-tft", "elecrow-adv1-43-50-70-tft"]

/-- `BIGDB_8MB` as the program actually has it: the parenthesized literals carry
no commas, so Python implicit string concatenation makes the expression one
single string, not a tuple. -/
def BIGDB_8MB : String := String.join BIGDB_8MB_ITEMS

/-- `BIGDB_16MB` as the program actually has it: one concatenated string. -/
def BIGDB_16MB : String := String.join BIGDB_16MB_ITEMS

/-- Python's `needle in haystack` for two strings: substring containment.  This
is what `t in BIGDB_8MB` performs in `buildManifest`, since `BIGDB_8MB` is a
string. -/
def pyInStr (needle haystack : String) : Prop := needle.data <:+: haystack.data

instance (n h : String) : Decidable (pyInStr n h) := by unfold pyInStr; infer_instance

/-- Tier-1 data recovered from `partitions.bin`, `None` when parsing failed or
the file is absent. -/
structure PartitionsOffsets where
  flash_size : Option String
  fw_offset : Option Nat
  bleota_offset : Option Nat
  littlefs_offset : Option Nat
deriving DecidableEq

structure OffsetResolution where
  flashsize : String
  install_fw_offset : Nat
  install_bleota_offset : Nat
  install_littlefs_offset : Nat
deriving DecidableEq

/-- Python truthiness of an optional string (`None` and `""` are falsy). -/
def truthy : Option String → Bool
  | none => false
  | some s => s != ""

/-- The `=== DETERMINE FLASH SIZE ===` chain: partitions.bin, then the
`device.info` declaration, then the static lists, defaulting to `"4MB"`. -/
def resolveFlashsize (po : Option PartitionsOffsets) (devinfoFlashSize : Option String)
    (t : String) : String :=
  if truthy (po.bind (fun p => p.flash_size)) then (po.bind (fun p => p.flash_size)).getD ""
  else if truthy devinfoFlashSize then devinfoFlashSize.getD ""
  else if pyInStr t BIGDB_8MB then "8MB"
  else if pyInStr t BIGDB_16MB then "16MB"
  else "4MB"

/-- The `=== DETERMINE OFFSETS ===` chain of `buildManifest`: each offset comes
from partitions.bin when present (`is not None`), else from the hardcoded
constants selected by the resolved flash-size class. -/
def resolveOffsets (po : Option PartitionsOffsets) (devinfoFlashSize : Option String)
    (t : String) : OffsetResolution :=
  let flashsize := resolveFlashsize po devinfoFlashSize t
  let install_fw_offset :=
    match po.bind (fun p => p.fw_offset) with
    | some v => v
    | none => 0
  let install_bleota_offset :=
    match po.bind (fun p => p.bleota_offset) with
    | some v => v
    | none =>
      if flashsize = "16MB" then 0x650000
      else if flashsize = "8MB" then 0x5D0000
      else 0x260000
  let install_littlefs_offset :=
    match po.bind (fun p => p.littlefs_offset) with
    | some v => v
    | none =>
      if flashsize = "16MB" then 0xc90000
      else if flashsize = "8MB" then 0x670000
      else 0x300000
  ⟨flashsize, install_fw_offset, install_bleota_offset, install_littlefs_offset⟩

/-! ## Spec-side predicates for the decoder's failure conditions -/

/-- The leading (little-endian u16) magic of the record starting at byte `32 * i`. -/
def recordMagic (data : List Nat) (i : Nat) : Nat :=
  (data.drop (32 * i)).getD 0 0 + 256 * (data.drop (32 * i)).getD 1 0

/-- The buffer holds a full 32-byte record at index `i`. -/
def hasRecord (data : List Nat) (i : Nat) : Prop := 32 * (i + 1) ≤ data.length

instance (data : List Nat) (i : Nat) : Decidable (hasRecord data i) := by
  unfold hasRecord; infer_instance

/-- Some full record before any end marker carries an invalid leading magic. -/
def specBadMagic (data : List Nat) : Prop :=
  ∃ i, hasRecord data i ∧ recordMagic data i ≠ PARTITION_MAGIC ∧
    recordMagic data i ≠ PARTITION_END_MARKER ∧
    ∀ j < i, recordMagic data j ≠ PARTITION_END_MARKER

/-- No full record in the buffer is an end marker: the scan exhausts the buffer
with fewer than 32 bytes remaining before finding one. -/
def specNoEndMarker (data : List Nat) : Prop :=
  ∀ i, hasRecord data i → recordMagic data i ≠ PARTITION_END_MARKER

/-- The successful-parse condition: some full record is an end marker and every
record before it carries the valid magic. -/
def goodParse (data : List Nat) : Prop :=
  ∃ i, hasRecord data i ∧ recordMagic data i = PARTITION_END_MARKER ∧
    ∀ j < i, recordMagic data j = PARTITION_MAGIC

/-- The 16 name bytes of the record starting at byte `32 * i`. -/
def nameBytesAt (data : List Nat) (i : Nat) : List Nat :=
  (data.drop (32 * i + 12)).take 16

/-- Modelled from the spec: the flash-size class as the spec words it — the
smallest of 2, 4, 8, 16 MB that is at least the used size in megabytes, else
the used size rounded up to the next whole MB.  Compared against the class
computed by `format_analysis`. -/
def specFlashClass (b : Nat) : String :=
  if 2 * 1048576 ≥ b then "2MB"
  else if 4 * 1048576 ≥ b then "4MB"
  else if 8 * 1048576 ≥ b then "8MB"
  else if 16 * 1048576 ≥ b then "16MB"
  else toString ((b + 1048575) / 1048576) ++ "MB"

/-- Adjacent pair `i, i+1` of the sorted scan violates the overlap rule. -/
def overlapViolation (l : List PartitionEntry) (i : Nat) : Prop :=
  i + 1 < l.length ∧ (l.getD i dummyEntry).size ≠ 0xFFFFFFFF ∧
    (l.getD (i + 1) dummyEntry).offset <
      (l.getD i dummyEntry).offset + (l.getD i dummyEntry).size

instance (l : List PartitionEntry) (i : Nat) : Decidable (overlapViolation l i) := by
  unfold overlapViolation; infer_instance

/-! ## Basic lemmas about the decoder building blocks -/

theorem utf8Go_length_le (l : List Nat) :
    ∀ st, (utf8Go st l).length ≤ (if st.isSome then 1 else 0) + l.length := by
  induction l with
  | nil => intro st; cases st <;> simp [utf8Go]
  | cons b rest ih =>
    intro st
    cases st with
    | none =>
      cases hc : utf8Classify b with
      | emit c =>
        have h1 := ih none
        simp only [utf8Go, hc, Option.isSome] at h1 ⊢
        simp at h1 ⊢
        omega
      | start acc need lo hi =>
        have h1 := ih (some (acc, need, lo, hi))
        simp only [utf8Go, hc, Option.isSome] at h1 ⊢
        simp at h1 ⊢
        omega
    | some q =>
      obtain ⟨acc, need, lo, hi⟩ := q
      by_cases hbr : lo ≤ b ∧ b ≤ hi
      · by_cases hn : need = 1
        · have h1 := ih none
          simp only [utf8Go, hbr, hn] at h1 ⊢
          simp at h1 ⊢
          omega
        · have h1 := ih (some (acc * 64 + (b - 0x80), need - 1, 0x80, 0xBF))
          simp only [utf8Go, if_pos hbr, if_neg hn] at h1 ⊢
          simp at h1 ⊢
          omega
      · cases hc : utf8Classify b with
        | emit c =>
          have h1 := ih none
          simp only [utf8Go, if_neg hbr, hc] at h1 ⊢
          simp at h1 ⊢
          omega
        | start a2 n2 l2 h2 =>
          have h1 := ih (some (a2, n2, l2, h2))
          simp only [utf8Go, if_neg hbr, hc] at h1 ⊢
          simp at h1 ⊢
          omega

theorem utf8DecodeReplace_length_le (l : List Nat) :
    (utf8DecodeReplace l).length ≤ l.length := by
  have h1 := utf8Go_length_le l none
  simpa [utf8DecodeReplace] using h1

theorem rstripZeros_length_le (l : List Nat) : (rstripZeros l).length ≤ l.length := by
  have h1 := (List.dropWhile_sublist (l := l.reverse) (fun b => b == 0)).length_le
  simpa [rstripZeros] using h1

theorem rstripZeros_append_replicate (bs : List Nat) (k : Nat)
    (h : bs.getLast? ≠ some 0) : rstripZeros (bs ++ List.replicate k 0) = bs := by
  unfold rstripZeros
  rw [List.reverse_append, List.reverse_replicate]
  have h1 : List.dropWhile (fun b => b == 0) (List.replicate k 0 ++ bs.reverse) =
      List.dropWhile (fun b => b == 0) bs.reverse := by
    induction k with
    | zero => simp
    | succ n ihn =>
      rw [List.replicate_succ, List.cons_append, List.dropWhile_cons]
      simpa using ihn
  rw [h1]
  have h2 : List.dropWhile (fun b => b == 0) bs.reverse = bs.reverse := by
    cases hr : bs.reverse with
    | nil => simp
    | cons a t =>
      have ha : bs.getLast? = some a := by
        rw [List.getLast?_eq_head?_reverse, hr]; rfl
      have ha0 : a ≠ 0 := by intro h0; exact h (by rw [ha, h0])
      simp [List.dropWhile_cons, ha0]
  rw [h2, List.reverse_reverse]

theorem rstripZeros_eq_self (bs : List Nat) (h : bs.getLast? ≠ some 0) :
    rstripZeros bs = bs := by
  have h1 := rstripZeros_append_replicate bs 0 h
  rw [List.replicate_zero, List.append_nil] at h1
  exact h1

/-! ## Step equations for `parseLoop` -/

theorem parseLoop_short (rem : List Nat) (off : Nat) (h : rem.length < 32) :
    parseLoop rem off = .error (.truncated off) := by
  rcases rem with _ | ⟨b0, rem⟩; · rfl
  rcases rem with _ | ⟨b1, rem⟩; · rfl
  rcases rem with _ | ⟨b2, rem⟩; · rfl
  rcases rem with _ | ⟨b3, rem⟩; · rfl
  rcases rem with _ | ⟨b4, rem⟩; · rfl
  rcases rem with _ | ⟨b5, rem⟩; · rfl
  rcases rem with _ | ⟨b6, rem⟩; · rfl
  rcases rem with _ | ⟨b7, rem⟩; · rfl
  rcases rem with _ | ⟨b8, rem⟩; · rfl
  rcases rem with _ | ⟨b9, rem⟩; · rfl
  rcases rem with _ | ⟨b10, rem⟩; · rfl
  rcases rem with _ | ⟨b11, rem⟩; · rfl
  rcases rem with _ | ⟨b12, rem⟩; · rfl
  rcases rem with _ | ⟨b13, rem⟩; · rfl
  rcases rem with _ | ⟨b14, rem⟩; · rfl
  rcases rem with _ | ⟨b15, rem⟩; · rfl
  rcases rem with _ | ⟨b16, rem⟩; · rfl
  rcases rem with _ | ⟨b17, rem⟩; · rfl
  rcases rem with _ | ⟨b18, rem⟩; · rfl
  rcases rem with _ | ⟨b19, rem⟩; · rfl
  rcases rem with _ | ⟨b20, rem⟩; · rfl
  rcases rem with _ | ⟨b21, rem⟩; · rfl
  rcases rem with _ | ⟨b22, rem⟩; · rfl
  rcases rem with _ | ⟨b23, rem⟩; · rfl
  rcases rem with _ | ⟨b24, rem⟩; · rfl
  rcases rem with _ | ⟨b25, rem⟩; · rfl
  rcases rem with _ | ⟨b26, rem⟩; · rfl
  rcases rem with _ | ⟨b27, rem⟩; · rfl
  rcases rem with _ | ⟨b28, rem⟩; · rfl
  rcases rem with _ | ⟨b29, rem⟩; · rfl
  rcases rem with _ | ⟨b30, rem⟩; · rfl
  rcases rem with _ | ⟨b31, rem⟩; · rfl
  exact absurd h (by simp)

theorem parseLoop_step (rem : List Nat) (off : Nat) (h : 32 ≤ rem.length) :
    parseLoop rem off =
      (if rem.getD 0 0 + 256 * rem.getD 1 0 = PARTITION_END_MARKER then Except.ok []
       else if rem.getD 0 0 + 256 * rem.getD 1 0 ≠ PARTITION_MAGIC then
         Except.error (ParseErr.badMagic off (rem.getD 0 0 + 256 * rem.getD 1 0))
       else
         match parseLoop (rem.drop 32) (off + 32) with
         | .ok es => .ok (decodeFields rem :: es)
         | .error e => .error e) := by
  rcases rem with _ | ⟨b0, rem⟩; · simp at h
  rcases rem with _ | ⟨b1, rem⟩; · simp at h
  rcases rem with _ | ⟨b2, rem⟩; · simp at h
  rcases rem with _ | ⟨b3, rem⟩; · simp at h
  rcases rem with _ | ⟨b4, rem⟩; · simp at h
  rcases rem with _ | ⟨b5, rem⟩; · simp at h
  rcases rem with _ | ⟨b6, rem⟩; · simp at h
  rcases rem with _ | ⟨b7, rem⟩; · simp at h
  rcases rem with _ | ⟨b8, rem⟩; · simp at h
  rcases rem with _ | ⟨b9, rem⟩; · simp at h
  rcases rem with _ | ⟨b10, rem⟩; · simp at h
  rcases rem with _ | ⟨b11, rem⟩; · simp at h
  rcases rem with _ | ⟨b12, rem⟩; · simp at h
  rcases rem with _ | ⟨b13, rem⟩; · simp at h
  rcases rem with _ | ⟨b14, rem⟩; · simp at h
  rcases rem with _ | ⟨b15, rem⟩; · simp at h
  rcases rem with _ | ⟨b16, rem⟩; · simp at h
  rcases rem with _ | ⟨b17, rem⟩; · simp at h
  rcases rem with _ | ⟨b18, rem⟩; · simp at h
  rcases rem with _ | ⟨b19, rem⟩; · simp at h
  rcases rem with _ | ⟨b20, rem⟩; · simp at h
  rcases rem with _ | ⟨b21, rem⟩; · simp at h
  rcases rem with _ | ⟨b22, rem⟩; · simp at h
  rcases rem with _ | ⟨b23, rem⟩; · simp at h
  rcases rem with _ | ⟨b24, rem⟩; · simp at h
  rcases rem with _ | ⟨b25, rem⟩; · simp at h
  rcases rem with _ | ⟨b26, rem⟩; · simp at h
  rcases rem with _ | ⟨b27, rem⟩; · simp at h
  rcases rem with _ | ⟨b28, rem⟩; · simp at h
  rcases rem with _ | ⟨b29, rem⟩; · simp at h
  rcases rem with _ | ⟨b30, rem⟩; · simp at h
  rcases rem with _ | ⟨b31, rem⟩; · simp at h
  rfl

/-! ## Characterizing success and failure of the parse loop -/

theorem recordMagic_drop (data : List Nat) (i : Nat) :
    recordMagic (data.drop 32) i = recordMagic data (i + 1) := by
  unfold recordMagic
  have h1 : 32 + 32 * i = 32 * (i + 1) := by ring
  rw [List.drop_drop, h1]

theorem recordMagic_zero (data : List Nat) :
    recordMagic data 0 = data.getD 0 0 + 256 * data.getD 1 0 := by
  unfold recordMagic
  simp

theorem hasRecord_drop (data : List Nat) (i : Nat) (h : 32 ≤ data.length) :
    hasRecord (data.drop 32) i ↔ hasRecord data (i + 1) := by
  unfold hasRecord
  rw [List.length_drop]
  omega

theorem parseLoop_ok_aux :
    ∀ (n : Nat) (rem : List Nat), rem.length ≤ n → ∀ off,
      ((∃ t, parseLoop rem off = .ok t) ↔ goodParse rem) := by
  intro n
  induction n with
  | zero =>
    intro rem hlen off
    rw [parseLoop_short rem off (by omega)]
    constructor
    · rintro ⟨t, ht⟩; exact absurd ht (by simp)
    · rintro ⟨i, hi, -, -⟩; unfold hasRecord at hi; omega
  | succ n ih =>
    intro rem hlen off
    by_cases h32 : rem.length < 32
    · rw [parseLoop_short rem off h32]
      constructor
      · rintro ⟨t, ht⟩; exact absurd ht (by simp)
      · rintro ⟨i, hi, -, -⟩; unfold hasRecord at hi; omega
    · push_neg at h32
      rw [parseLoop_step rem off h32]
      have hm0 : recordMagic rem 0 = rem.getD 0 0 + 256 * rem.getD 1 0 := recordMagic_zero rem
      rw [← hm0]
      by_cases hEnd : recordMagic rem 0 = PARTITION_END_MARKER
      · rw [if_pos hEnd]
        constructor
        · intro h0
          exact ⟨0, by unfold hasRecord; omega, hEnd, fun j hj => absurd hj (Nat.not_lt_zero j)⟩
        · intro h0; exact ⟨[], rfl⟩
      · rw [if_neg hEnd]
        have hrec := ih (rem.drop 32) (by rw [List.length_drop]; omega) (off + 32)
        by_cases hMag : recordMagic rem 0 = PARTITION_MAGIC
        · rw [if_neg (fun hcon => hcon hMag)]
          constructor
          · rintro ⟨t, ht⟩
            cases hpl : parseLoop (rem.drop 32) (off + 32) with
            | ok es =>
              obtain ⟨i, hi1, hi2, hi3⟩ := hrec.mp ⟨es, hpl⟩
              refine ⟨i + 1, (hasRecord_drop rem i h32).mp hi1, ?_, ?_⟩
              · rw [← recordMagic_drop]; exact hi2
              · intro j hj
                cases j with
                | zero => exact hMag
                | succ j2 => rw [← recordMagic_drop]; exact hi3 j2 (by omega)
            | error e => rw [hpl] at ht; exact absurd ht (by simp)
          · rintro ⟨i, hi1, hi2, hi3⟩
            cases i with
            | zero => exact absurd hi2 hEnd
            | succ i2 =>
              have hg2 : goodParse (rem.drop 32) := by
                refine ⟨i2, (hasRecord_drop rem i2 h32).mpr hi1, ?_, ?_⟩
                · rw [recordMagic_drop]; exact hi2
                · intro j hj; rw [recordMagic_drop]; exact hi3 (j + 1) (by omega)
              obtain ⟨t, ht⟩ := hrec.mpr hg2
              refine ⟨decodeFields rem :: t, ?_⟩
              rw [ht]
        · rw [if_pos hMag]
          constructor
          · rintro ⟨t, ht⟩; exact absurd ht (by simp)
          · rintro ⟨i, hi1, hi2, hi3⟩
            cases i with
            | zero => exact absurd hi2 hEnd
            | succ i2 => exact absurd (hi3 0 (by omega)) hMag

theorem parseLoop_ok_iff (rem : List Nat) (off : Nat) :
    (∃ t, parseLoop rem off = .ok t) ↔ goodParse rem :=
  parseLoop_ok_aux rem.length rem le_rfl off

theorem parseLoop_error_iff (rem : List Nat) (off : Nat) :
    (∃ e, parseLoop rem off = .error e) ↔ ¬goodParse rem := by
  rw [← parseLoop_ok_iff rem off]
  cases h : parseLoop rem off <;> simp [h]

theorem not_goodParse_iff (data : List Nat) :
    ¬goodParse data ↔ specBadMagic data ∨ specNoEndMarker data := by
  constructor
  · intro hng
    by_cases hend : ∃ i, hasRecord data i ∧ recordMagic data i = PARTITION_END_MARKER
    · left
      have hi0 := Nat.find_spec hend
      have hnall : ¬∀ j < Nat.find hend, recordMagic data j = PARTITION_MAGIC :=
        fun hall => hng ⟨Nat.find hend, hi0.1, hi0.2, hall⟩
      push_neg at hnall
      obtain ⟨j0, hj0lt, hj0ne⟩ := hnall
      have hq : ∃ j, j < Nat.find hend ∧ recordMagic data j ≠ PARTITION_MAGIC :=
        ⟨j0, hj0lt, hj0ne⟩
      have hj1 := Nat.find_spec hq
      have hrecmono : ∀ j, j < Nat.find hend → hasRecord data j := by
        intro j hj
        have h1 := hi0.1
        unfold hasRecord at h1 ⊢
        omega
      refine ⟨Nat.find hq, hrecmono _ hj1.1, hj1.2, ?_, ?_⟩
      · have h2 := Nat.find_min hend hj1.1
        intro hcon
        exact h2 ⟨hrecmono _ hj1.1, hcon⟩
      · intro j hj hcon
        have h3 := Nat.find_min hend (Nat.lt_trans hj hj1.1)
        exact h3 ⟨hrecmono _ (Nat.lt_trans hj hj1.1), hcon⟩
    · right
      intro i hi hend2
      exact hend ⟨i, hi, hend2⟩
  · rintro (⟨i, hi1, hi2, hi3, hi4⟩ | hno)
    · rintro ⟨k, hk1, hk2, hk3⟩
      rcases lt_trichotomy i k with hik | hik | hik
      · exact hi2 (hk3 i hik)
      · subst hik; exact hi3 hk2
      · exact hi4 k hik hk2
    · rintro ⟨k, hk1, hk2, -⟩
      exact hno k hk1 hk2

theorem parseLoop_badMagic (i : Nat) : ∀ (rem : List Nat) (off : Nat),
    hasRecord rem i → (∀ j < i, recordMagic rem j = PARTITION_MAGIC) →
    recordMagic rem i ≠ PARTITION_MAGIC → recordMagic rem i ≠ PARTITION_END_MARKER →
    parseLoop rem off = .error (.badMagic (off + 32 * i) (recordMagic rem i)) := by
  induction i with
  | zero =>
    intro rem off h1 h2 h3 h4
    have h32 : 32 ≤ rem.length := by unfold hasRecord at h1; omega
    rw [parseLoop_step rem off h32, ← recordMagic_zero rem, if_neg h4, if_pos h3]
    simp
  | succ i2 ih =>
    intro rem off h1 h2 h3 h4
    have h32 : 32 ≤ rem.length := by unfold hasRecord at h1; omega
    have hm0 : recordMagic rem 0 = PARTITION_MAGIC := h2 0 (by omega)
    have hmne : recordMagic rem 0 ≠ PARTITION_END_MARKER := by
      rw [hm0]; unfold PARTITION_MAGIC PARTITION_END_MARKER; omega
    rw [parseLoop_step rem off h32, ← recordMagic_zero rem, if_neg hmne,
      if_neg (fun hcon => hcon hm0)]
    have hinner := ih (rem.drop 32) (off + 32)
      ((hasRecord_drop rem i2 h32).mpr h1)
      (fun j hj => by rw [recordMagic_drop]; exact h2 (j + 1) (by omega))
      (by rw [recordMagic_drop]; exact h3)
      (by rw [recordMagic_drop]; exact h4)
    rw [hinner]
    have harith : off + 32 + 32 * i2 = off + 32 * (i2 + 1) := by ring
    rw [recordMagic_drop, harith]

/-- C3: parsing raises a ParseError exactly when the buffer is shorter than 32
bytes, or some full record before any end marker has a leading magic that is
neither 0x50AA nor 0xEBEB (with the error reporting that record's byte offset),
or the buffer runs out with fewer than 32 bytes remaining before any end-marker
record; otherwise parsing succeeds. -/
theorem C3_decoder_failure_conditions (data : List Nat) :
    ((∃ e, parse_partitions_file data = .error e) ↔
      (data.length < 32 ∨ specBadMagic data ∨ specNoEndMarker data))
    ∧ (∀ i, hasRecord data i → (∀ j < i, recordMagic data j = PARTITION_MAGIC) →
        recordMagic data i ≠ PARTITION_MAGIC →
        recordMagic data i ≠ PARTITION_END_MARKER →
        parse_partitions_file data = .error (.badMagic (32 * i) (recordMagic data i))) := by
  constructor
  · by_cases hd : data.length < 32
    · constructor
      · intro h0; exact Or.inl hd
      · intro h0
        refine ⟨.tooSmall data.length, ?_⟩
        unfold parse_partitions_file PARTITION_ENTRY_SIZE
        rw [if_pos hd]
    · have hd2 : ¬data.length < PARTITION_ENTRY_SIZE := by
        unfold PARTITION_ENTRY_SIZE; omega
      unfold parse_partitions_file
      rw [if_neg hd2, parseLoop_error_iff, not_goodParse_iff]
      constructor
      · intro h0; exact Or.inr h0
      · rintro (h0 | h0)
        · exact absurd h0 hd
        · exact h0
  · intro i h1 h2 h3 h4
    have hd2 : ¬data.length < PARTITION_ENTRY_SIZE := by
      unfold hasRecord at h1; unfold PARTITION_ENTRY_SIZE; omega
    unfold parse_partitions_file
    rw [if_neg hd2]
    have h5 := parseLoop_badMagic i data 0 h1 h2 h3 h4
    simpa using h5

/-- Witness for C3: a buffer with a valid first record and magic 0x1234 in the
second record parses to a bad-magic error reported at byte offset 32. -/
theorem C3_decoder_failure_conditions_witness :
    parse_partitions_file
        ([0xAA, 0x50] ++ List.replicate 30 0 ++ [0x34, 0x12] ++ List.replicate 30 0) =
      .error (.badMagic 32 0x1234) := by
  have h := (C3_decoder_failure_conditions
      ([0xAA, 0x50] ++ List.replicate 30 0 ++ [0x34, 0x12] ++ List.replicate 30 0)).2
    1 (by decide) (by decide) (by decide) (by decide)
  have e1 : recordMagic
      ([0xAA, 0x50] ++ List.replicate 30 0 ++ [0x34, 0x12] ++ List.replicate 30 0) 1 =
      0x1234 := by decide
  rw [e1] at h
  simpa using h

/-! ## Decoded names as a function of buffer positions -/

theorem parseLoop_names_aux :
    ∀ (n : Nat) (rem : List Nat), rem.length ≤ n → ∀ off es, parseLoop rem off = .ok es →
      ∀ i, i < es.length →
        (es.getD i dummyEntry).name =
          utf8DecodeReplace (rstripZeros ((rem.drop (32 * i + 12)).take 16)) := by
  intro n
  induction n with
  | zero =>
    intro rem hlen off es hok i hi
    rw [parseLoop_short rem off (by omega)] at hok
    exact absurd hok (by simp)
  | succ n ih =>
    intro rem hlen off es hok i hi
    by_cases h32 : rem.length < 32
    · rw [parseLoop_short rem off h32] at hok
      exact absurd hok (by simp)
    · push_neg at h32
      rw [parseLoop_step rem off h32] at hok
      by_cases hEnd : rem.getD 0 0 + 256 * rem.getD 1 0 = PARTITION_END_MARKER
      · rw [if_pos hEnd] at hok
        have hes : ([] : List PartitionEntry) = es := by injection hok
        rw [← hes] at hi
        exact absurd hi (by simp)
      · rw [if_neg hEnd] at hok
        by_cases hMag : rem.getD 0 0 + 256 * rem.getD 1 0 ≠ PARTITION_MAGIC
        · rw [if_pos hMag] at hok
          exact absurd hok (by simp)
        · rw [if_neg hMag] at hok
          cases hpl : parseLoop (rem.drop 32) (off + 32) with
          | error e =>
            rw [hpl] at hok
            exact absurd hok (by simp)
          | ok es2 =>
            rw [hpl] at hok
            have hes : decodeFields rem :: es2 = es := by injection hok
            subst hes
            cases i with
            | zero =>
              norm_num [decodeFields]
            | succ i2 =>
              have hrec := ih (rem.drop 32) (by rw [List.length_drop]; omega) (off + 32)
                es2 hpl i2 (by simpa using hi)
              rw [List.getD_cons_succ, hrec, List.drop_drop]
              have harith : 32 + (32 * i2 + 12) = 32 * (i2 + 1) + 12 := by ring
              rw [harith]

theorem parse_names_eq (data : List Nat) (es : List PartitionEntry)
    (h : parse_partitions_file data = .ok es) (i : Nat) (hi : i < es.length) :
    (es.getD i dummyEntry).name = utf8DecodeReplace (rstripZeros (nameBytesAt data i)) := by
  unfold parse_partitions_file at h
  by_cases hd : data.length < PARTITION_ENTRY_SIZE
  · rw [if_pos hd] at h
    exact absurd h (by simp)
  · rw [if_neg hd] at h
    have h2 := parseLoop_names_aux data.length data le_rfl 0 es h i hi
    simpa [nameBytesAt] using h2

/-- C2 (amended): each decoded record's name equals the record's 16 name bytes
with trailing zero bytes stripped (interior zero bytes are retained) and then
decoded as UTF-8 with invalid byte sequences replaced rather than failing. -/
theorem C2_name_decoding_amended (data : List Nat) (es : List PartitionEntry)
    (h : parse_partitions_file data = .ok es) :
    ∀ i < es.length,
      (es.getD i dummyEntry).name = utf8DecodeReplace (rstripZeros (nameBytesAt data i)) :=
  fun i hi => parse_names_eq data es h i hi

/-- Witness for C2 (amended): on a record whose name bytes are
`61 62 00 63 64` followed by zero padding, the decoded name keeps the interior
zero byte and the two bytes after it. -/
theorem C2_name_decoding_amended_witness :
    (([⟨[0x61, 0x62, 0, 0x63, 0x64], 0, 0, 0, 0, 0⟩] : List PartitionEntry).getD 0
        dummyEntry).name =
      utf8DecodeReplace (rstripZeros (nameBytesAt
        [0xAA, 0x50, 0, 0, 0, 0, 0, 0, 0, 0, 0, 0,
         0x61, 0x62, 0, 0x63, 0x64, 0, 0, 0, 0, 0, 0, 0, 0, 0, 0, 0, 0, 0, 0, 0,
         0xEB, 0xEB, 0, 0, 0, 0, 0, 0, 0, 0, 0, 0, 0, 0, 0, 0,
         0, 0, 0, 0, 0, 0, 0, 0, 0, 0, 0, 0, 0, 0, 0, 0] 0)) :=
  C2_name_decoding_amended
    [0xAA, 0x50, 0, 0, 0, 0, 0, 0, 0, 0, 0, 0,
     0x61, 0x62, 0, 0x63, 0x64, 0, 0, 0, 0, 0, 0, 0, 0, 0, 0, 0, 0, 0, 0, 0,
     0xEB, 0xEB, 0, 0, 0, 0, 0, 0, 0, 0, 0, 0, 0, 0, 0, 0,
     0, 0, 0, 0, 0, 0, 0, 0, 0, 0, 0, 0, 0, 0, 0, 0]
    [⟨[0x61, 0x62, 0, 0x63, 0x64], 0, 0, 0, 0, 0⟩] (by decide) 0 (by decide)

/-- Counterexample to C2 as stated: the decoder does not truncate the name at
the first zero byte.  With name bytes `61 62 00 63 64` and zero padding, the
decoded name is `[0x61, 0x62, 0, 0x63, 0x64]`, not `[0x61, 0x62]`. -/
theorem C2_name_decoding_counterexample :
    ∃ es, parse_partitions_file
        [0xAA, 0x50, 0, 0, 0, 0, 0, 0, 0, 0, 0, 0,
         0x61, 0x62, 0, 0x63, 0x64, 0, 0, 0, 0, 0, 0, 0, 0, 0, 0, 0, 0, 0, 0, 0,
         0xEB, 0xEB, 0, 0, 0, 0, 0, 0, 0, 0, 0, 0, 0, 0, 0, 0,
         0, 0, 0, 0, 0, 0, 0, 0, 0, 0, 0, 0, 0, 0, 0, 0] = .ok es ∧
      (es.getD 0 dummyEntry).name = [0x61, 0x62, 0, 0x63, 0x64] ∧
      (es.getD 0 dummyEntry).name ≠ [0x61, 0x62] :=
  ⟨[⟨[0x61, 0x62, 0, 0x63, 0x64], 0, 0, 0, 0, 0⟩], by decide, by decide, by decide⟩

/-- C10: every table produced by the decoder has entry names of at most 16
characters, so the validator's name-too-long branch can never fire on a
decoder-produced entry. -/
theorem C10_decoded_names_bounded (data : List Nat) (es : List PartitionEntry)
    (h : parse_partitions_file data = .ok es) :
    ∀ e ∈ es, e.name.length ≤ 16 ∧
      ∀ i len2, _validate_entry e i ≠ some (.nameTooLong i len2) := by
  intro e he
  obtain ⟨i, hi, hei⟩ := List.mem_iff_getElem.mp he
  have hgd : es.getD i dummyEntry = e := by
    rw [List.getD_eq_getElem?_getD, List.getElem?_eq_getElem hi, Option.getD_some, hei]
  have hname := parse_names_eq data es h i hi
  rw [hgd] at hname
  have hlen : e.name.length ≤ 16 := by
    rw [hname]
    have h1 := utf8DecodeReplace_length_le (rstripZeros (nameBytesAt data i))
    have h2 := rstripZeros_length_le (nameBytesAt data i)
    have h3 : (nameBytesAt data i).length ≤ 16 := by
      unfold nameBytesAt
      rw [List.length_take]
      omega
    omega
  refine ⟨hlen, ?_⟩
  intro i2 len2
  unfold _validate_entry
  split_ifs with hc1 hc2 hc3 hc4
  · simp
  · omega
  · simp
  · simp
  · simp

/-- Witness for C10: applied to a concrete parsed buffer with a one-character name. -/
theorem C10_decoded_names_bounded_witness :
    (⟨[0x61, 0x62, 0, 0x63, 0x64], 0, 0, 0, 0, 0⟩ : PartitionEntry).name.length ≤ 16 ∧
      ∀ i len2, _validate_entry ⟨[0x61, 0x62, 0, 0x63, 0x64], 0, 0, 0, 0, 0⟩ i ≠
        some (.nameTooLong i len2) :=
  C10_decoded_names_bounded
    [0xAA, 0x50, 0, 0, 0, 0, 0, 0, 0, 0, 0, 0,
     0x61, 0x62, 0, 0x63, 0x64, 0, 0, 0, 0, 0, 0, 0, 0, 0, 0, 0, 0, 0, 0, 0,
     0xEB, 0xEB, 0, 0, 0, 0, 0, 0, 0, 0, 0, 0, 0, 0, 0, 0,
     0, 0, 0, 0, 0, 0, 0, 0, 0, 0, 0, 0, 0, 0, 0, 0]
    [⟨[0x61, 0x62, 0, 0x63, 0x64], 0, 0, 0, 0, 0⟩] (by decide)
    ⟨[0x61, 0x62, 0, 0x63, 0x64], 0, 0, 0, 0, 0⟩ (by decide)

/-- C9: the empty table always fails validation with the empty-table error,
before any per-record or overlap check, for either value of the overlap flag. -/
theorem C9_empty_table_validation :
    ∀ flag : Bool, validate_partition_table [] flag = some .emptyTable :=
  fun _ => rfl

/-- Counterexample to C7 as stated: data subtype 0x00 is named `"ota"`, not
`"ota-data"`, and subtype 0x03 is named `"coredump"` (the trailing legacy
duplicate key in the dict literal overrides the `nvs_keys` entry), not
`"nvs_keys"`. -/
theorem C7_data_subtype_names_counterexample :
    get_subtype_name 0x01 0x00 = "ota" ∧ "ota" ≠ "ota-data" ∧
      get_subtype_name 0x01 0x03 = "coredump" ∧ "coredump" ≠ "nvs_keys" :=
  ⟨rfl, by decide, rfl, by decide⟩

/-- C7 (amended): the data-subtype naming maps 0x00 to ota, 0x01 to phy, 0x02 to
nvs, 0x03 to coredump (the legacy literal overrides nvs_keys), 0x04 to efuse,
0x06 to esphttpd, 0x07 to fat, 0x08 to spiffs, 0x09 to littlefs, 0x10 to
descriptors, 0xFE to coredump, and the legacy value 0x82 to spiffs. -/
theorem C7_data_subtype_names_amended :
    get_subtype_name 0x01 0x00 = "ota" ∧ get_subtype_name 0x01 0x01 = "phy" ∧
      get_subtype_name 0x01 0x02 = "nvs" ∧ get_subtype_name 0x01 0x03 = "coredump" ∧
      get_subtype_name 0x01 0x04 = "efuse" ∧ get_subtype_name 0x01 0x06 = "esphttpd" ∧
      get_subtype_name 0x01 0x07 = "fat" ∧ get_subtype_name 0x01 0x08 = "spiffs" ∧
      get_subtype_name 0x01 0x09 = "littlefs" ∧ get_subtype_name 0x01 0x10 = "descriptors" ∧
      get_subtype_name 0x01 0xFE = "coredump" ∧ get_subtype_name 0x01 0x82 = "spiffs" :=
  ⟨rfl, rfl, rfl, rfl, rfl, rfl, rfl, rfl, rfl, rfl, rfl, rfl⟩

set_option maxRecDepth 40000 in
/-- Counterexample to C8 as stated: the source's `BIGDB_8MB=( ... )` literals
carry no commas, so the value is one concatenated string and `t in BIGDB_8MB`
is a substring test.  The identifier "one" names no device in either static
list, yet it resolves to the 8MB constants because "one" occurs inside
"unphone"; it does not default to 4MB as the claim states. -/
theorem C8_tiered_fallback_counterexample :
    ("one" ∉ BIGDB_8MB_ITEMS ∧ "one" ∉ BIGDB_16MB_ITEMS) ∧
      resolveOffsets none none "one" = ⟨"8MB", 0, 0x5D0000, 0x670000⟩ ∧
      resolveOffsets none none "one" ≠ ⟨"4MB", 0, 0x260000, 0x300000⟩ := by
  refine ⟨⟨by decide, by decide⟩, by decide, by decide⟩

/-- C8 (amended): `BIGDB_8MB` and `BIGDB_16MB` are single concatenated strings
(the parenthesized source literals have no commas), and the tier-3 membership
test is Python substring containment.  With no parsed partition data and no
declared per-device flash size, a device identifier occurring as a substring of
the concatenated 8MB string resolves to 8MB with the hardcoded 8MB constants
(firmware 0, secondary 0x5D0000, filesystem 0x670000); an identifier occurring
as a substring of neither concatenated string defaults to 4MB with constants
0, 0x260000, 0x300000; and whenever partitions data supplies no secondary or
filesystem offset, the fallback constant is selected by the flash-size class
resolved by the earlier tiers. -/
theorem C8_tiered_fallback_amended (t : String) :
    (pyInStr t BIGDB_8MB →
      resolveOffsets none none t = ⟨"8MB", 0, 0x5D0000, 0x670000⟩)
    ∧ (¬pyInStr t BIGDB_8MB → ¬pyInStr t BIGDB_16MB →
      resolveOffsets none none t = ⟨"4MB", 0, 0x260000, 0x300000⟩)
    ∧ (∀ po dv, po.bind (fun p => p.bleota_offset) = none →
        (resolveOffsets po dv t).install_bleota_offset =
          (if (resolveOffsets po dv t).flashsize = "16MB" then 0x650000
           else if (resolveOffsets po dv t).flashsize = "8MB" then 0x5D0000
           else 0x260000))
    ∧ (∀ po dv, po.bind (fun p => p.littlefs_offset) = none →
        (resolveOffsets po dv t).install_littlefs_offset =
          (if (resolveOffsets po dv t).flashsize = "16MB" then 0xc90000
           else if (resolveOffsets po dv t).flashsize = "8MB" then 0x670000
           else 0x300000)) := by
  refine ⟨?_, ?_, ?_, ?_⟩
  · intro h
    simp [resolveOffsets, resolveFlashsize, truthy, h]
  · intro h8 h16
    simp [resolveOffsets, resolveFlashsize, truthy, h8, h16]
  · intro po dv h
    simp [resolveOffsets, h]
  · intro po dv h
    simp [resolveOffsets, h]

set_option maxRecDepth 40000 in
/-- Witness for C8 (amended): a listed device identifier is a substring of the
concatenated 8MB string and gets the 8MB constants; "foo" occurs in neither
concatenated string and gets the 4MB defaults. -/
theorem C8_tiered_fallback_amended_witness :
    resolveOffsets none none "heltec-v3" = ⟨"8MB", 0, 0x5D0000, 0x670000⟩ ∧
      resolveOffsets none none "foo" = ⟨"4MB", 0, 0x260000, 0x300000⟩ :=
  ⟨(C8_tiered_fallback_amended "heltec-v3").1 (by decide),
   (C8_tiered_fallback_amended "foo").2.1 (by decide) (by decide)⟩

/-! ## The analyzer's flash-size computation -/

theorem foldl_best_spec (es : List PartitionEntry) : ∀ a : PartitionEntry,
    (es.foldl (fun best x => if best.offset + best.size < x.offset + x.size then x else best) a = a
      ∨ es.foldl (fun best x => if best.offset + best.size < x.offset + x.size then x else best) a
          ∈ es)
    ∧ a.offset + a.size ≤
        (es.foldl (fun best x => if best.offset + best.size < x.offset + x.size then x else best)
          a).offset +
        (es.foldl (fun best x => if best.offset + best.size < x.offset + x.size then x else best)
          a).size
    ∧ ∀ x ∈ es, x.offset + x.size ≤
        (es.foldl (fun best x => if best.offset + best.size < x.offset + x.size then x else best)
          a).offset +
        (es.foldl (fun best x => if best.offset + best.size < x.offset + x.size then x else best)
          a).size := by
  induction es with
  | nil => intro a; simp
  | cons y ys ih =>
    intro a
    simp only [List.foldl_cons]
    by_cases hy : a.offset + a.size < y.offset + y.size
    · rw [if_pos hy]
      obtain ⟨ihm, iha, ihx⟩ := ih y
      refine ⟨?_, by omega, ?_⟩
      · rcases ihm with h | h
        · right; rw [h]; exact List.mem_cons_self y ys
        · right; exact List.mem_cons_of_mem y h
      · intro x hx
        rcases List.mem_cons.mp hx with rfl | hx2
        · exact iha
        · exact ihx x hx2
    · rw [if_neg hy]
      obtain ⟨ihm, iha, ihx⟩ := ih a
      refine ⟨?_, iha, ?_⟩
      · rcases ihm with h | h
        · left; exact h
        · right; exact List.mem_cons_of_mem y h
      · intro x hx
        rcases List.mem_cons.mp hx with rfl | hx2
        · omega
        · exact ihx x hx2

theorem flashSizeClass_eq_specFlashClass (b : Nat) : flashSizeClass b = specFlashClass b := by
  unfold flashSizeClass specFlashClass
  split_ifs <;> first
    | rfl
    | omega
    | (congr 2 <;> try omega)

/-- C5: the analyzer takes flash_size_bytes as the maximum of offset+size over
all entries (0 for the empty table, which also yields an empty partitions map
and no error), and reports the smallest of 2/4/8/16 MB at least that size in
megabytes, else the size rounded up to the next whole MB, with
4 MiB mapping to "4MB", 4 MiB + 1 to "8MB" and 0 to "2MB". -/
theorem C5_flash_size_analysis (entries : List PartitionEntry) :
    (∀ e ∈ entries, e.offset + e.size ≤ (format_analysis entries).flash_size_bytes)
    ∧ (entries = [] →
        (format_analysis entries).flash_size_bytes = 0 ∧
          (format_analysis entries).partitions = [])
    ∧ (entries ≠ [] →
        ∃ e ∈ entries, (format_analysis entries).flash_size_bytes = e.offset + e.size)
    ∧ (format_analysis entries).flash_size_mb =
        specFlashClass ((format_analysis entries).flash_size_bytes)
    ∧ ((format_analysis entries).flash_size_bytes = 4 * 1048576 →
        (format_analysis entries).flash_size_mb = "4MB")
    ∧ ((format_analysis entries).flash_size_bytes = 4 * 1048576 + 1 →
        (format_analysis entries).flash_size_mb = "8MB")
    ∧ ((format_analysis entries).flash_size_bytes = 0 →
        (format_analysis entries).flash_size_mb = "2MB") := by
  have hb : (format_analysis entries).flash_size_bytes = flash_size_bytes entries := rfl
  have hm2 : (format_analysis entries).flash_size_mb =
      flashSizeClass (flash_size_bytes entries) := rfl
  refine ⟨?_, ?_, ?_, ?_, ?_, ?_, ?_⟩
  · intro e he
    rw [hb]
    cases entries with
    | nil => exact absurd he (by simp)
    | cons y ys =>
      obtain ⟨-, iha, ihx⟩ := foldl_best_spec ys y
      rcases List.mem_cons.mp he with rfl | hx2
      · exact iha
      · exact ihx e hx2
  · intro h
    subst h
    exact ⟨rfl, rfl⟩
  · intro h
    cases entries with
    | nil => exact absurd rfl h
    | cons y ys =>
      obtain ⟨ihm, -, -⟩ := foldl_best_spec ys y
      have hval : (format_analysis (y :: ys)).flash_size_bytes =
          (ys.foldl
            (fun best x => if best.offset + best.size < x.offset + x.size then x else best)
            y).offset +
          (ys.foldl
            (fun best x => if best.offset + best.size < x.offset + x.size then x else best)
            y).size := rfl
      refine ⟨ys.foldl
        (fun best x => if best.offset + best.size < x.offset + x.size then x else best) y,
        ?_, hval⟩
      rcases ihm with h2 | h2
      · rw [h2]; exact List.mem_cons_self y ys
      · exact List.mem_cons_of_mem y h2
  · rw [hm2, hb]
    exact flashSizeClass_eq_specFlashClass _
  · intro h
    rw [hb] at h
    rw [hm2, h]
    decide
  · intro h
    rw [hb] at h
    rw [hm2, h]
    decide
  · intro h
    rw [hb] at h
    rw [hm2, h]
    decide

/-- Witness for C5: a nonempty concrete table attains its flash_size_bytes at
one of its entries. -/
theorem C5_flash_size_analysis_witness :
    ∃ e ∈ ([⟨[0x61], 0, 0, 0x10000, 0x5000, 0⟩] : List PartitionEntry),
      (format_analysis [⟨[0x61], 0, 0, 0x10000, 0x5000, 0⟩]).flash_size_bytes =
        e.offset + e.size :=
  (C5_flash_size_analysis [⟨[0x61], 0, 0, 0x10000, 0x5000, 0⟩]).2.2.1 (by decide)

/-! ## The overlap scan -/

theorem overlapViolation_cons_succ (a : PartitionEntry) (l : List PartitionEntry) (i : Nat) :
    overlapViolation (a :: l) (i + 1) ↔ overlapViolation l i := by
  unfold overlapViolation
  rw [List.getD_cons_succ, List.getD_cons_succ]
  constructor <;> rintro ⟨h1, h2, h3⟩ <;> refine ⟨?_, h2, h3⟩ <;> simp at h1 ⊢ <;> omega

theorem overlapViolation_cons_zero (a b : PartitionEntry) (l : List PartitionEntry) :
    overlapViolation (a :: b :: l) 0 ↔
      a.size ≠ 0xFFFFFFFF ∧ b.offset < a.offset + a.size := by
  unfold overlapViolation
  simp

theorem firstOverlap_none_iff (l : List PartitionEntry) :
    firstOverlap l = none ↔ ∀ i, ¬overlapViolation l i := by
  induction l with
  | nil =>
    constructor
    · intro h0 i hv
      exact absurd hv.1 (by simp)
    · intro h0; rfl
  | cons a l2 ih =>
    cases l2 with
    | nil =>
      constructor
      · intro h0 i hv
        have h1 := hv.1
        simp at h1
      · intro h0; rfl
    | cons b l3 =>
      by_cases hv : a.size ≠ 0xFFFFFFFF ∧ b.offset < a.offset + a.size
      · have h0 : overlapViolation (a :: b :: l3) 0 :=
          (overlapViolation_cons_zero a b l3).mpr hv
        rw [show firstOverlap (a :: b :: l3) = some (a, b) from by
          rw [firstOverlap, if_pos hv]]
        constructor
        · intro hc; exact absurd hc (by simp)
        · intro hall; exact absurd h0 (hall 0)
      · rw [show firstOverlap (a :: b :: l3) = firstOverlap (b :: l3) from by
          rw [firstOverlap, if_neg hv], ih]
        constructor
        · intro hall i
          cases i with
          | zero =>
            intro hvv
            exact hv ((overlapViolation_cons_zero a b l3).mp hvv)
          | succ i2 =>
            intro hvv
            exact hall i2 ((overlapViolation_cons_succ a (b :: l3) i2).mp hvv)
        · intro hall i hvv
          exact hall (i + 1) ((overlapViolation_cons_succ a (b :: l3) i).mpr hvv)

theorem firstOverlap_some_iff (l : List PartitionEntry) (p : PartitionEntry × PartitionEntry) :
    firstOverlap l = some p ↔
      ∃ i, overlapViolation l i ∧
        p = (l.getD i dummyEntry, l.getD (i + 1) dummyEntry) ∧
        ∀ j < i, ¬overlapViolation l j := by
  induction l with
  | nil =>
    constructor
    · intro hc; exact absurd hc (by simp [firstOverlap])
    · rintro ⟨i, hv, -, -⟩
      exact absurd hv.1 (by simp)
  | cons a l2 ih =>
    cases l2 with
    | nil =>
      constructor
      · intro hc; exact absurd hc (by simp [firstOverlap])
      · rintro ⟨i, hv, -, -⟩
        have h1 := hv.1
        simp at h1
    | cons b l3 =>
      by_cases hv : a.size ≠ 0xFFFFFFFF ∧ b.offset < a.offset + a.size
      · rw [show firstOverlap (a :: b :: l3) = some (a, b) from by
          rw [firstOverlap, if_pos hv]]
        constructor
        · intro h0
          have hp : p = (a, b) := by
            have := h0
            injection this with h1
            exact h1.symm
          refine ⟨0, (overlapViolation_cons_zero a b l3).mpr hv, by rw [hp]; rfl,
            fun j hj => absurd hj (by omega)⟩
        · rintro ⟨i, hvi, hp, hmin⟩
          cases i with
          | zero => rw [hp]; rfl
          | succ i2 =>
            exact absurd ((overlapViolation_cons_zero a b l3).mpr hv)
              (hmin 0 (by omega))
      · rw [show firstOverlap (a :: b :: l3) = firstOverlap (b :: l3) from by
          rw [firstOverlap, if_neg hv], ih]
        constructor
        · rintro ⟨i, hvi, hp, hmin⟩
          refine ⟨i + 1, (overlapViolation_cons_succ a (b :: l3) i).mpr hvi, ?_, ?_⟩
          · rw [List.getD_cons_succ, List.getD_cons_succ]; exact hp
          · intro j hj
            cases j with
            | zero =>
              intro hc
              exact hv ((overlapViolation_cons_zero a b l3).mp hc)
            | succ j2 =>
              intro hc
              exact hmin j2 (by omega) ((overlapViolation_cons_succ a (b :: l3) j2).mp hc)
        · rintro ⟨i, hvi, hp, hmin⟩
          cases i with
          | zero => exact absurd ((overlapViolation_cons_zero a b l3).mp hvi) hv
          | succ i2 =>
            refine ⟨i2, (overlapViolation_cons_succ a (b :: l3) i2).mp hvi, ?_, ?_⟩
            · rw [List.getD_cons_succ, List.getD_cons_succ] at hp; exact hp
            · intro j hj hc
              exact hmin (j + 1) (by omega) ((overlapViolation_cons_succ a (b :: l3) j).mpr hc)

/-- C6: the overlap check fails exactly when some adjacent pair of the
positive-offset entries sorted by offset has a non-sentinel earlier size whose
end exceeds the later offset; the reported pair is the first such pair, pairs
with a sentinel earlier size are skipped, and the scanned list is the sorted
restriction to positive offsets. -/
theorem C6_overlap_validation (entries : List PartitionEntry) :
    ((_check_overlaps entries).isSome ↔ ∃ i, overlapViolation (overlapSorted entries) i)
    ∧ (∀ a b, _check_overlaps entries = some (.overlap a b) →
        ∃ i, overlapViolation (overlapSorted entries) i ∧
          a = (overlapSorted entries).getD i dummyEntry ∧
          b = (overlapSorted entries).getD (i + 1) dummyEntry ∧
          ∀ j < i, ¬overlapViolation (overlapSorted entries) j)
    ∧ (overlapSorted entries).Pairwise (fun x y => x.offset ≤ y.offset)
    ∧ (overlapSorted entries).Perm (entries.filter (fun e => decide (0 < e.offset))) := by
  refine ⟨?_, ?_, ?_, ?_⟩
  · cases hf : firstOverlap (overlapSorted entries) with
    | none =>
      rw [firstOverlap_none_iff] at hf
      simp only [_check_overlaps]
      rw [show firstOverlap (overlapSorted entries) = none from by
        rw [firstOverlap_none_iff]; exact hf]
      constructor
      · intro hc; exact absurd hc (by simp)
      · rintro ⟨i, hi⟩; exact absurd hi (hf i)
    | some q =>
      simp only [_check_overlaps, hf]
      obtain ⟨i, hvi, -, -⟩ := (firstOverlap_some_iff (overlapSorted entries) q).mp hf
      exact iff_of_true (by simp) ⟨i, hvi⟩
  · intro a b h0
    cases hf : firstOverlap (overlapSorted entries) with
    | none =>
      rw [_check_overlaps, hf] at h0
      exact absurd h0 (by simp)
    | some q =>
      obtain ⟨qa, qb⟩ := q
      rw [_check_overlaps, hf] at h0
      simp [ValidationErr.overlap.injEq] at h0
      obtain ⟨i, hvi, hp, hmin⟩ :=
        (firstOverlap_some_iff (overlapSorted entries) (qa, qb)).mp hf
      refine ⟨i, hvi, ?_, ?_, hmin⟩
      · rw [← h0.1]
        exact congrArg Prod.fst hp
      · rw [← h0.2]
        exact congrArg Prod.snd hp
  · have h1 := @List.sorted_mergeSort PartitionEntry
      (fun a b : PartitionEntry => decide (a.offset ≤ b.offset))
      (fun a b c => by simp; omega) (fun a b => by simp; omega)
      (entries.filter (fun e => decide (0 < e.offset)))
    unfold overlapSorted
    exact h1.imp (by simp)
  · exact List.mergeSort_perm _ _

/-- Witness for C6: a concrete table with two overlapping entries reports its
first (only) adjacent violating pair. -/
theorem C6_overlap_validation_witness :
    ∃ i, overlapViolation
        (overlapSorted [⟨[0x61], 0, 0, 0x1000, 0x2000, 0⟩, ⟨[0x62], 0, 0, 0x2000, 0x1000, 0⟩]) i ∧
      (⟨[0x61], 0, 0, 0x1000, 0x2000, 0⟩ : PartitionEntry) =
        (overlapSorted [⟨[0x61], 0, 0, 0x1000, 0x2000, 0⟩,
          ⟨[0x62], 0, 0, 0x2000, 0x1000, 0⟩]).getD i dummyEntry ∧
      (⟨[0x62], 0, 0, 0x2000, 0x1000, 0⟩ : PartitionEntry) =
        (overlapSorted [⟨[0x61], 0, 0, 0x1000, 0x2000, 0⟩,
          ⟨[0x62], 0, 0, 0x2000, 0x1000, 0⟩]).getD (i + 1) dummyEntry ∧
      ∀ j < i, ¬overlapViolation
        (overlapSorted [⟨[0x61], 0, 0, 0x1000, 0x2000, 0⟩,
          ⟨[0x62], 0, 0, 0x2000, 0x1000, 0⟩]) j :=
  (C6_overlap_validation
    [⟨[0x61], 0, 0, 0x1000, 0x2000, 0⟩, ⟨[0x62], 0, 0, 0x2000, 0x1000, 0⟩]).2.1
    ⟨[0x61], 0, 0, 0x1000, 0x2000, 0⟩ ⟨[0x62], 0, 0, 0x2000, 0x1000, 0⟩ (by
      have hs : overlapSorted
          [⟨[0x61], 0, 0, 0x1000, 0x2000, 0⟩, ⟨[0x62], 0, 0, 0x2000, 0x1000, 0⟩] =
          [⟨[0x61], 0, 0, 0x1000, 0x2000, 0⟩, ⟨[0x62], 0, 0, 0x2000, 0x1000, 0⟩] := by
        unfold overlapSorted
        rw [show ([⟨[0x61], 0, 0, 0x1000, 0x2000, 0⟩,
            ⟨[0x62], 0, 0, 0x2000, 0x1000, 0⟩] : List PartitionEntry).filter
            (fun e => decide (0 < e.offset)) =
            [⟨[0x61], 0, 0, 0x1000, 0x2000, 0⟩, ⟨[0x62], 0, 0, 0x2000, 0x1000, 0⟩] from by
          decide]
        exact List.mergeSort_of_sorted (by decide)
      rw [_check_overlaps, hs]
      rfl)

/-- C4: the selector returns none exactly when no entry has the requested type
with a subtype in the priority list; otherwise it returns the offset of an
entry minimizing (index of subtype in the priority list, offset)
lexicographically over all matching entries. -/
theorem C4_best_match_selector (entries : List PartitionEntry) (type_val : Nat)
    (subtypes : List Nat) :
    (find_partition_by_type entries type_val subtypes = none ↔
      ¬∃ e ∈ entries, e.type_val = type_val ∧ e.subtype ∈ subtypes)
    ∧ (∀ off, find_partition_by_type entries type_val subtypes = some off →
        ∃ e ∈ entries, (e.type_val = type_val ∧ e.subtype ∈ subtypes) ∧ e.offset = off ∧
          ∀ e2 ∈ entries, e2.type_val = type_val → e2.subtype ∈ subtypes →
            (subtypes.indexOf e.subtype < subtypes.indexOf e2.subtype ∨
              (subtypes.indexOf e.subtype = subtypes.indexOf e2.subtype ∧
                e.offset ≤ e2.offset))) := by
  have hmem : ∀ e : PartitionEntry,
      e ∈ entries.filter
        (fun e => decide (e.type_val = type_val) && subtypes.contains e.subtype) ↔
      e ∈ entries ∧ e.type_val = type_val ∧ e.subtype ∈ subtypes := by
    intro e
    simp [List.mem_filter, List.contains]
  have htrans : ∀ a b c : PartitionEntry,
      keyLe (keyOf subtypes a) (keyOf subtypes b) = true →
      keyLe (keyOf subtypes b) (keyOf subtypes c) = true →
      keyLe (keyOf subtypes a) (keyOf subtypes c) = true := by
    intro a b c
    simp [keyLe, keyOf]
    omega
  have htotal : ∀ a b : PartitionEntry,
      (keyLe (keyOf subtypes a) (keyOf subtypes b) ||
        keyLe (keyOf subtypes b) (keyOf subtypes a)) = true := by
    intro a b
    simp [keyLe, keyOf]
    omega
  unfold find_partition_by_type
  by_cases h0 : (entries.filter
      (fun e => decide (e.type_val = type_val) && subtypes.contains e.subtype)).isEmpty
  · rw [if_pos h0]
    have hnil := List.isEmpty_iff.mp h0
    constructor
    · constructor
      · rintro h1 ⟨e, he, h2, h3⟩
        have h4 := (hmem e).mpr ⟨he, h2, h3⟩
        rw [hnil] at h4
        exact absurd h4 (by simp)
      · intro h1; rfl
    · intro off hoff
      exact absurd hoff (by simp)
  · rw [if_neg h0]
    have hp := List.mergeSort_perm
      (entries.filter (fun e => decide (e.type_val = type_val) && subtypes.contains e.subtype))
      (fun a b => keyLe (keyOf subtypes a) (keyOf subtypes b))
    have hsorted := @List.sorted_mergeSort PartitionEntry
      (fun a b => keyLe (keyOf subtypes a) (keyOf subtypes b)) htrans htotal
      (entries.filter (fun e => decide (e.type_val = type_val) && subtypes.contains e.subtype))
    cases hsort : (entries.filter
        (fun e => decide (e.type_val = type_val) && subtypes.contains e.subtype)).mergeSort
        (fun a b => keyLe (keyOf subtypes a) (keyOf subtypes b)) with
    | nil =>
      rw [hsort] at hp
      have h5 : entries.filter
          (fun e => decide (e.type_val = type_val) && subtypes.contains e.subtype) = [] :=
        hp.nil_eq.symm
      rw [h5] at h0
      exact absurd rfl h0
    | cons e rest =>
      rw [hsort] at hp hsorted
      have hef : e ∈ entries.filter
          (fun e => decide (e.type_val = type_val) && subtypes.contains e.subtype) :=
        hp.mem_iff.mp (List.mem_cons_self e rest)
      obtain ⟨he, h2, h3⟩ := (hmem e).mp hef
      constructor
      · exact iff_of_false (by simp) (fun hno => hno ⟨e, he, h2, h3⟩)
      · intro off hoff
        have heoff : e.offset = off := by
          simpa using hoff
        refine ⟨e, he, ⟨h2, h3⟩, heoff, ?_⟩
        intro e2 he2m ht2 hs2
        have he2f : e2 ∈ entries.filter
            (fun e => decide (e.type_val = type_val) && subtypes.contains e.subtype) :=
          (hmem e2).mpr ⟨he2m, ht2, hs2⟩
        have h6 : e2 ∈ e :: rest := hp.mem_iff.mpr he2f
        rcases List.mem_cons.mp h6 with h7 | h7
        · subst h7
          exact Or.inr ⟨rfl, le_rfl⟩
        · have h8 := (List.pairwise_cons.mp hsorted).1 e2 h7
          simp [keyLe, keyOf] at h8
          omega

/-- Witness for C4: with two app entries, subtype 0x10 at offset 0x20000 and
subtype 0x00 at offset 0x10000, and priority list [0x10, 0x00], the selector
returns 0x20000 (subtype priority beats the lower offset). -/
theorem C4_best_match_selector_witness :
    ∃ e ∈ ([⟨[0x61], 0, 0x10, 0x20000, 0x1000, 0⟩,
        ⟨[0x62], 0, 0x00, 0x10000, 0x1000, 0⟩] : List PartitionEntry),
      (e.type_val = 0 ∧ e.subtype ∈ [0x10, 0x00]) ∧ e.offset = 0x20000 ∧
      ∀ e2 ∈ ([⟨[0x61], 0, 0x10, 0x20000, 0x1000, 0⟩,
          ⟨[0x62], 0, 0x00, 0x10000, 0x1000, 0⟩] : List PartitionEntry),
        e2.type_val = 0 → e2.subtype ∈ [0x10, 0x00] →
          (([0x10, 0x00] : List Nat).indexOf e.subtype <
              ([0x10, 0x00] : List Nat).indexOf e2.subtype ∨
            (([0x10, 0x00] : List Nat).indexOf e.subtype =
              ([0x10, 0x00] : List Nat).indexOf e2.subtype ∧ e.offset ≤ e2.offset)) :=
  (C4_best_match_selector
    [⟨[0x61], 0, 0x10, 0x20000, 0x1000, 0⟩, ⟨[0x62], 0, 0x00, 0x10000, 0x1000, 0⟩]
    0 [0x10, 0x00]).2 0x20000 (by
      have hflt : (([⟨[0x61], 0, 0x10, 0x20000, 0x1000, 0⟩,
          ⟨[0x62], 0, 0x00, 0x10000, 0x1000, 0⟩] : List PartitionEntry).filter
          (fun e => decide (e.type_val = 0) && ([0x10, 0x00] : List Nat).contains e.subtype)) =
          [⟨[0x61], 0, 0x10, 0x20000, 0x1000, 0⟩, ⟨[0x62], 0, 0x00, 0x10000, 0x1000, 0⟩] := by
        decide
      have hms : ([⟨[0x61], 0, 0x10, 0x20000, 0x1000, 0⟩,
          ⟨[0x62], 0, 0x00, 0x10000, 0x1000, 0⟩] : List PartitionEntry).mergeSort
          (fun a b => keyLe (keyOf [0x10, 0x00] a) (keyOf [0x10, 0x00] b)) =
          [⟨[0x61], 0, 0x10, 0x20000, 0x1000, 0⟩, ⟨[0x62], 0, 0x00, 0x10000, 0x1000, 0⟩] :=
        List.mergeSort_of_sorted (by decide)
      unfold find_partition_by_type
      rw [hflt]
      simp only [hms]
      rfl)

/-! ## The UTF-8 encoder inverts the decoder on scalar values -/

theorem utf8EncodeChar_ne_nil (c : Nat) : utf8EncodeChar c ≠ [] := by
  unfold utf8EncodeChar
  split_ifs <;> simp

theorem utf8EncodeChar_getLast_ne_zero (c : Nat) (hc : c ≠ 0) :
    (utf8EncodeChar c).getLast? ≠ some 0 := by
  unfold utf8EncodeChar
  split_ifs <;> simp <;> try omega

theorem utf8Encode_getLast_ne_zero (cs : List Nat) (h : cs.getLast? ≠ some 0) :
    (utf8Encode cs).getLast? ≠ some 0 := by
  induction cs with
  | nil => simp [utf8Encode]
  | cons c cs2 ih =>
    rw [utf8Encode, List.flatMap_cons]
    cases cs2 with
    | nil =>
      rw [List.flatMap_nil, List.append_nil]
      exact utf8EncodeChar_getLast_ne_zero c (by simpa using h)
    | cons d ds =>
      have hne : (d :: ds).flatMap utf8EncodeChar ≠ [] := by
        rw [List.flatMap_cons]
        exact List.append_ne_nil_of_left_ne_nil (utf8EncodeChar_ne_nil d) _
      rw [List.getLast?_append]
      have h2 := ih (by rw [← List.getLast?_cons_cons (a := c)]; exact h)
      rw [utf8Encode] at h2
      cases hgl : ((d :: ds).flatMap utf8EncodeChar).getLast? with
      | none => exact absurd (List.getLast?_eq_none_iff.mp hgl) hne
      | some x =>
        rw [hgl] at h2
        simpa using h2

theorem utf8Go_encodeChar (c : Nat) (hv : ValidScalar c) (tail : List Nat) :
    utf8Go none (utf8EncodeChar c ++ tail) = c :: utf8Go none tail := by
  obtain ⟨hlt, hsur⟩ := hv
  unfold utf8EncodeChar
  by_cases h1 : c < 0x80
  · rw [if_pos h1]
    simp only [List.cons_append, List.nil_append]
    simp [utf8Go, utf8Classify, h1]
  · rw [if_neg h1]
    by_cases h2 : c < 0x800
    · rw [if_pos h2]
      simp only [List.cons_append, List.nil_append]
      have hb1 : ¬0xC0 + c / 64 < 0x80 := by omega
      have hb2 : ¬0xC0 + c / 64 < 0xC2 := by omega
      have hb3 : 0xC0 + c / 64 ≤ 0xDF := by omega
      have hc1 : 0x80 ≤ 0x80 + c % 64 := by omega
      have hc2 : 0x80 + c % 64 ≤ 0xBF := by omega
      simp [utf8Go, utf8Classify, hb1, hb2, hb3, hc1, hc2]
      omega
    · rw [if_neg h2]
      by_cases h3 : c < 0x10000
      · rw [if_pos h3]
        simp only [List.cons_append, List.nil_append]
        have hb1 : ¬0xE0 + c / 4096 < 0x80 := by omega
        have hb2 : ¬0xE0 + c / 4096 < 0xC2 := by omega
        have hb3 : ¬0xE0 + c / 4096 ≤ 0xDF := by omega
        have hb4 : 0xE0 + c / 4096 ≤ 0xEF := by omega
        have hc1 : 0x80 ≤ 0x80 + c % 64 := by omega
        have hc2 : 0x80 + c % 64 ≤ 0xBF := by omega
        rcases (show c < 0x1000 ∨ (0xD000 ≤ c ∧ c < 0xE000) ∨
            (0x1000 ≤ c ∧ ¬(0xD000 ≤ c ∧ c < 0xE000)) from by omega) with hcs | hcs | hcs
        · have he0 : 0xE0 + c / 4096 = 0xE0 := by omega
          have hed : ¬0xE0 + c / 4096 = 0xED := by omega
          have hr1 : 0xA0 ≤ 0x80 + c / 64 % 64 := by omega
          have hr2 : 0x80 + c / 64 % 64 ≤ 0xBF := by omega
          simp [utf8Go, utf8Classify, hb1, hb2, hb3, hb4, he0, hed, hr1, hr2, hc1, hc2]
          omega
        · have he0 : ¬0xE0 + c / 4096 = 0xE0 := by omega
          have hed : 0xE0 + c / 4096 = 0xED := by omega
          have hr1 : 0x80 ≤ 0x80 + c / 64 % 64 := by omega
          have hr2 : 0x80 + c / 64 % 64 ≤ 0x9F := by omega
          simp [utf8Go, utf8Classify, hb1, hb2, hb3, hb4, he0, hed, hr1, hr2, hc1, hc2]
          omega
        · have he0 : ¬0xE0 + c / 4096 = 0xE0 := by omega
          have hed : ¬0xE0 + c / 4096 = 0xED := by omega
          have hr1 : 0x80 ≤ 0x80 + c / 64 % 64 := by omega
          have hr2 : 0x80 + c / 64 % 64 ≤ 0xBF := by omega
          simp [utf8Go, utf8Classify, hb1, hb2, hb3, hb4, he0, hed, hr1, hr2, hc1, hc2]
          omega
      · rw [if_neg h3]
        simp only [List.cons_append, List.nil_append]
        have hb1 : ¬0xF0 + c / 262144 < 0x80 := by omega
        have hb2 : ¬0xF0 + c / 262144 < 0xC2 := by omega
        have hb3 : ¬0xF0 + c / 262144 ≤ 0xDF := by omega
        have hb4 : ¬0xF0 + c / 262144 ≤ 0xEF := by omega
        have hb5 : 0xF0 + c / 262144 ≤ 0xF4 := by omega
        have hc1 : 0x80 ≤ 0x80 + c / 64 % 64 := by omega
        have hc2 : 0x80 + c / 64 % 64 ≤ 0xBF := by omega
        have hd1 : 0x80 ≤ 0x80 + c % 64 := by omega
        have hd2 : 0x80 + c % 64 ≤ 0xBF := by omega
        rcases (show c < 0x40000 ∨ 0x100000 ≤ c ∨
            (0x40000 ≤ c ∧ c < 0x100000) from by omega) with hcs | hcs | hcs
        · have hf0 : 0xF0 + c / 262144 = 0xF0 := by omega
          have hf4 : ¬0xF0 + c / 262144 = 0xF4 := by omega
          have hr1 : 0x90 ≤ 0x80 + c / 4096 % 64 := by omega
          have hr2 : 0x80 + c / 4096 % 64 ≤ 0xBF := by omega
          simp [utf8Go, utf8Classify, hb1, hb2, hb3, hb4, hb5, hf0, hf4, hr1, hr2,
            hc1, hc2, hd1, hd2]
          omega
        · have hf0 : ¬0xF0 + c / 262144 = 0xF0 := by omega
          have hf4 : 0xF0 + c / 262144 = 0xF4 := by omega
          have hr1 : 0x80 ≤ 0x80 + c / 4096 % 64 := by omega
          have hr2 : 0x80 + c / 4096 % 64 ≤ 0x8F := by omega
          simp [utf8Go, utf8Classify, hb1, hb2, hb3, hb4, hb5, hf0, hf4, hr1, hr2,
            hc1, hc2, hd1, hd2]
          omega
        · have hf0 : ¬0xF0 + c / 262144 = 0xF0 := by omega
          have hf4 : ¬0xF0 + c / 262144 = 0xF4 := by omega
          have hr1 : 0x80 ≤ 0x80 + c / 4096 % 64 := by omega
          have hr2 : 0x80 + c / 4096 % 64 ≤ 0xBF := by omega
          simp [utf8Go, utf8Classify, hb1, hb2, hb3, hb4, hb5, hf0, hf4, hr1, hr2,
            hc1, hc2, hd1, hd2]
          omega

theorem utf8Decode_encode (cs : List Nat) (h : ∀ c ∈ cs, ValidScalar c) :
    utf8DecodeReplace (utf8Encode cs) = cs := by
  induction cs with
  | nil => rfl
  | cons c cs2 ih =>
    rw [utf8Encode, List.flatMap_cons]
    unfold utf8DecodeReplace
    rw [utf8Go_encodeChar c (h c (List.mem_cons_self c cs2)) _]
    have h2 := ih (fun x hx => h x (List.mem_cons_of_mem c hx))
    rw [utf8DecodeReplace, utf8Encode] at h2
    rw [h2]

/-! ## Round trip: parsing a synthetic encoded table -/

theorem encodeEntry_expand (e : PartitionEntry) (z : List Nat) :
    encodeEntry e ++ z =
      0xAA :: 0x50 :: (e.type_val % 256) :: (e.subtype % 256) ::
      (e.offset % 256) :: (e.offset / 256 % 256) :: (e.offset / 65536 % 256) ::
      (e.offset / 16777216 % 256) ::
      (e.size % 256) :: (e.size / 256 % 256) :: (e.size / 65536 % 256) ::
      (e.size / 16777216 % 256) ::
      (nameField16 e.name ++
        ((e.flags % 256) :: (e.flags / 256 % 256) :: (e.flags / 65536 % 256) ::
          (e.flags / 16777216 % 256) :: z)) := by
  simp [encodeEntry, u16le, u32le, PARTITION_MAGIC, List.append_assoc]

theorem decodeFields_block (a0 a1 a2 a3 a4 a5 a6 a7 a8 a9 a10 a11 f0 f1 f2 f3 : Nat)
    (nf z : List Nat) (hnf : nf.length = 16) :
    decodeFields (a0 :: a1 :: a2 :: a3 :: a4 :: a5 :: a6 :: a7 :: a8 :: a9 :: a10 :: a11 ::
        (nf ++ (f0 :: f1 :: f2 :: f3 :: z))) =
      ⟨utf8DecodeReplace (rstripZeros nf), a2, a3, u32of a4 a5 a6 a7, u32of a8 a9 a10 a11,
        u32of f0 f1 f2 f3⟩ := by
  have hgd : ∀ k w, (nf ++ (f0 :: f1 :: f2 :: f3 :: z) : List Nat).getD (16 + k) w =
      (f0 :: f1 :: f2 :: f3 :: z).getD k w := by
    intro k w
    rw [List.getD_append_right _ _ _ _ (by rw [hnf]; omega), hnf]
    norm_num
  have houter : ∀ k w, (([a0, a1, a2, a3, a4, a5, a6, a7, a8, a9, a10, a11] : List Nat) ++
      (nf ++ (f0 :: f1 :: f2 :: f3 :: z))).getD (12 + k) w =
      (nf ++ (f0 :: f1 :: f2 :: f3 :: z)).getD k w := by
    intro k w
    rw [List.getD_append_right _ _ _ _ (by simp)]
    norm_num
  unfold decodeFields
  simp only [PartitionEntry.mk.injEq]
  refine ⟨?_, rfl, rfl, ?_, ?_, ?_⟩
  · have hd : ((a0 :: a1 :: a2 :: a3 :: a4 :: a5 :: a6 :: a7 :: a8 :: a9 :: a10 :: a11 ::
        (nf ++ (f0 :: f1 :: f2 :: f3 :: z)) : List Nat).drop 12) =
        nf ++ (f0 :: f1 :: f2 :: f3 :: z) := rfl
    rw [hd, ← hnf, List.take_left]
  · rfl
  · rfl
  · have hsplit : (a0 :: a1 :: a2 :: a3 :: a4 :: a5 :: a6 :: a7 :: a8 :: a9 :: a10 :: a11 ::
        (nf ++ (f0 :: f1 :: f2 :: f3 :: z)) : List Nat) =
        ([a0, a1, a2, a3, a4, a5, a6, a7, a8, a9, a10, a11] : List Nat) ++
          (nf ++ (f0 :: f1 :: f2 :: f3 :: z)) := rfl
    rw [hsplit]
    rw [show (28 : Nat) = 12 + (16 + 0) from rfl, show (29 : Nat) = 12 + (16 + 1) from rfl,
      show (30 : Nat) = 12 + (16 + 2) from rfl, show (31 : Nat) = 12 + (16 + 3) from rfl]
    rw [houter, houter, houter, houter, hgd, hgd, hgd, hgd]
    rfl

theorem parseLoop_encodeEntry (e : PartitionEntry) (z : List Nat) (off : Nat)
    (he : EncodableEntry e) (hlast : e.name.getLast? ≠ some 0) :
    parseLoop (encodeEntry e ++ z) off =
      (match parseLoop z (off + 32) with
       | .ok es => .ok (e :: es)
       | .error err => .error err) := by
  obtain ⟨hval, hlen16, ht, hs, ho, hsz, hf⟩ := he
  have hnf : (nameField16 e.name).length = 16 := by
    unfold nameField16
    rw [List.length_append, List.length_replicate]
    omega
  rw [encodeEntry_expand]
  have hlen : 32 ≤ (0xAA :: 0x50 :: (e.type_val % 256) :: (e.subtype % 256) ::
      (e.offset % 256) :: (e.offset / 256 % 256) :: (e.offset / 65536 % 256) ::
      (e.offset / 16777216 % 256) ::
      (e.size % 256) :: (e.size / 256 % 256) :: (e.size / 65536 % 256) ::
      (e.size / 16777216 % 256) ::
      (nameField16 e.name ++
        ((e.flags % 256) :: (e.flags / 256 % 256) :: (e.flags / 65536 % 256) ::
          (e.flags / 16777216 % 256) :: z))).length := by
    simp only [List.length_cons, List.length_append, hnf]
    omega
  rw [parseLoop_step _ off hlen]
  rw [show ((0xAA :: 0x50 :: (e.type_val % 256) :: (e.subtype % 256) ::
      (e.offset % 256) :: (e.offset / 256 % 256) :: (e.offset / 65536 % 256) ::
      (e.offset / 16777216 % 256) ::
      (e.size % 256) :: (e.size / 256 % 256) :: (e.size / 65536 % 256) ::
      (e.size / 16777216 % 256) ::
      (nameField16 e.name ++
        ((e.flags % 256) :: (e.flags / 256 % 256) :: (e.flags / 65536 % 256) ::
          (e.flags / 16777216 % 256) :: z)) : List Nat).getD 0 0) = 0xAA from rfl]
  rw [show ((0xAA :: 0x50 :: (e.type_val % 256) :: (e.subtype % 256) ::
      (e.offset % 256) :: (e.offset / 256 % 256) :: (e.offset / 65536 % 256) ::
      (e.offset / 16777216 % 256) ::
      (e.size % 256) :: (e.size / 256 % 256) :: (e.size / 65536 % 256) ::
      (e.size / 16777216 % 256) ::
      (nameField16 e.name ++
        ((e.flags % 256) :: (e.flags / 256 % 256) :: (e.flags / 65536 % 256) ::
          (e.flags / 16777216 % 256) :: z)) : List Nat).getD 1 0) = 0x50 from rfl]
  rw [if_neg (by unfold PARTITION_END_MARKER; omega)]
  rw [if_neg (by unfold PARTITION_MAGIC; omega)]
  have hdrop : ((0xAA :: 0x50 :: (e.type_val % 256) :: (e.subtype % 256) ::
      (e.offset % 256) :: (e.offset / 256 % 256) :: (e.offset / 65536 % 256) ::
      (e.offset / 16777216 % 256) ::
      (e.size % 256) :: (e.size / 256 % 256) :: (e.size / 65536 % 256) ::
      (e.size / 16777216 % 256) ::
      (nameField16 e.name ++
        ((e.flags % 256) :: (e.flags / 256 % 256) :: (e.flags / 65536 % 256) ::
          (e.flags / 16777216 % 256) :: z)) : List Nat).drop 32) = z := by
    have h1 : ((0xAA :: 0x50 :: (e.type_val % 256) :: (e.subtype % 256) ::
        (e.offset % 256) :: (e.offset / 256 % 256) :: (e.offset / 65536 % 256) ::
        (e.offset / 16777216 % 256) ::
        (e.size % 256) :: (e.size / 256 % 256) :: (e.size / 65536 % 256) ::
        (e.size / 16777216 % 256) ::
        (nameField16 e.name ++
          ((e.flags % 256) :: (e.flags / 256 % 256) :: (e.flags / 65536 % 256) ::
            (e.flags / 16777216 % 256) :: z)) : List Nat).drop 32) =
        ((nameField16 e.name ++
          ((e.flags % 256) :: (e.flags / 256 % 256) :: (e.flags / 65536 % 256) ::
            (e.flags / 16777216 % 256) :: z)).drop 20) := rfl
    rw [h1, List.drop_append_eq_append_drop, List.drop_eq_nil_of_le (by rw [hnf]; omega),
      hnf]
    norm_num
  rw [hdrop]
  have hfields := decodeFields_block 0xAA 0x50 (e.type_val % 256) (e.subtype % 256)
    (e.offset % 256) (e.offset / 256 % 256) (e.offset / 65536 % 256) (e.offset / 16777216 % 256)
    (e.size % 256) (e.size / 256 % 256) (e.size / 65536 % 256) (e.size / 16777216 % 256)
    (e.flags % 256) (e.flags / 256 % 256) (e.flags / 65536 % 256) (e.flags / 16777216 % 256)
    (nameField16 e.name) z hnf
  rw [hfields]
  have hentry : (⟨utf8DecodeReplace (rstripZeros (nameField16 e.name)),
      e.type_val % 256, e.subtype % 256,
      u32of (e.offset % 256) (e.offset / 256 % 256) (e.offset / 65536 % 256)
        (e.offset / 16777216 % 256),
      u32of (e.size % 256) (e.size / 256 % 256) (e.size / 65536 % 256)
        (e.size / 16777216 % 256),
      u32of (e.flags % 256) (e.flags / 256 % 256) (e.flags / 65536 % 256)
        (e.flags / 16777216 % 256)⟩ : PartitionEntry) = e := by
    have heta : e = ⟨e.name, e.type_val, e.subtype, e.offset, e.size, e.flags⟩ := rfl
    rw [heta]
    simp only [PartitionEntry.mk.injEq]
    refine ⟨?_, Nat.mod_eq_of_lt ht, Nat.mod_eq_of_lt hs, ?_, ?_, ?_⟩
    · rw [nameField16,
        rstripZeros_append_replicate _ _ (utf8Encode_getLast_ne_zero e.name hlast),
        utf8Decode_encode e.name hval]
    · unfold u32of; omega
    · unfold u32of; omega
    · unfold u32of; omega
  rw [hentry]

theorem parseLoop_encodeTable (es : List PartitionEntry)
    (h : ∀ e ∈ es, EncodableEntry e ∧ e.name.getLast? ≠ some 0) :
    ∀ off, parseLoop (encodeTable es) off = .ok es := by
  induction es with
  | nil =>
    intro off
    have h1 : encodeTable [] = endMarkerEntry := by
      simp [encodeTable]
    rw [h1]
    rw [parseLoop_step _ off (by decide)]
    rw [show (endMarkerEntry.getD 0 0 + 256 * endMarkerEntry.getD 1 0 =
      PARTITION_END_MARKER) from by decide]
    rw [if_pos rfl]
  | cons e es2 ih =>
    intro off
    have h1 : encodeTable (e :: es2) = encodeEntry e ++ encodeTable es2 := by
      simp [encodeTable, List.flatMap_cons, List.append_assoc]
    rw [h1, parseLoop_encodeEntry e _ off (h e (List.mem_cons_self e es2)).1
      (h e (List.mem_cons_self e es2)).2]
    rw [ih (fun x hx => h x (List.mem_cons_of_mem e hx)) (off + 32)]

/-- C1 (amended): for records whose fields fit their fixed widths, whose UTF-8
encoded names fit the 16-byte name field, and whose names do not end with the
NUL character, decoding the synthetic buffer yields exactly the input records;
a trailing NUL character in a name is lost because the decoder strips trailing
zero bytes. -/
theorem C1_roundtrip_amended (es : List PartitionEntry)
    (h : ∀ e ∈ es, EncodableEntry e ∧ e.name.getLast? ≠ some 0) :
    parse_partitions_file (encodeTable es) = .ok es := by
  unfold parse_partitions_file
  rw [if_neg (by
    unfold PARTITION_ENTRY_SIZE
    rw [encodeTable, List.length_append]
    have h2 : endMarkerEntry.length = 32 := by decide
    omega)]
  exact parseLoop_encodeTable es h 0

/-- Witness for C1 (amended): a two-record table round-trips through the
synthetic encoding. -/
theorem C1_roundtrip_amended_witness :
    parse_partitions_file (encodeTable
        [⟨[0x6E, 0x76, 0x73], 1, 2, 0x9000, 0x5000, 0⟩,
         ⟨[0x66, 0x77], 0, 0x10, 0x10000, 0x100000, 1⟩]) =
      .ok [⟨[0x6E, 0x76, 0x73], 1, 2, 0x9000, 0x5000, 0⟩,
           ⟨[0x66, 0x77], 0, 0x10, 0x10000, 0x100000, 1⟩] :=
  C1_roundtrip_amended
    [⟨[0x6E, 0x76, 0x73], 1, 2, 0x9000, 0x5000, 0⟩,
     ⟨[0x66, 0x77], 0, 0x10, 0x10000, 0x100000, 1⟩] (by decide)

/-- Counterexample to C1 as stated: a record whose name is the single NUL
character encodes to an all-zero name field, and decoding yields the empty
name, not the original record. -/
theorem C1_roundtrip_counterexample :
    parse_partitions_file (encodeTable [⟨[0], 0, 0, 0, 0, 0⟩]) =
        .ok [⟨[], 0, 0, 0, 0, 0⟩] ∧
      (⟨[], 0, 0, 0, 0, 0⟩ : PartitionEntry) ≠ ⟨[0], 0, 0, 0, 0, 0⟩ :=
  ⟨by decide, by decide⟩

/-- Witness for C9: the empty-table error at both values of the overlap flag. -/
theorem C9_empty_table_validation_witness :
    validate_partition_table [] true = some .emptyTable ∧
      validate_partition_table [] false = some .emptyTable :=
  ⟨C9_empty_table_validation true, C9_empty_table_validation false⟩
